import Mathlib

/-!
Shallow embedding of the ORK orchestration core:
* the pipeline driver (`pipeline.ts`): build-spec / registry model, agent
  resolution, per-agent retry, quality-gate evaluation and the bounded
  quality loop;
* the checklist runner (`tools/ui-runner-cli.js`, the verifier service and
  `BrowserVerifier.verify`): per-action retry, per-checkpoint truncation and
  run-result aggregation.

External effects (spawning a process via `execSync`, driving a Playwright
page) are modelled by environment oracles that decide the outcome of each
invocation; file-system logging and timestamps are orthogonal to the claims
and are not modelled.  Every run additionally produces an event trace that
mirrors the order of the driver's observable actions (phase starts, external
process invocations, result recording, agent exhaustion, gate evaluation).
-/

namespace Ork

/-- `BuildSpec` from `workspace/spec.json` (pipeline.ts `interface BuildSpec`).
`quality_gates` is optional in the source (`quality_gates?: string[]`). -/
structure BuildSpec where
  name : String
  targets : List String
  quality_gates : Option (List String)
  deriving Repr, DecidableEq

/-- `Agent` descriptor from `agents/registry.yaml` (pipeline.ts `interface Agent`).
Fields the driver logic never branches on (description, inputs, outputs,
pre/postconditions, timeout_seconds — the timeout is handed to the external
process, i.e. to the environment oracle) are omitted. -/
structure Agent where
  id : String
  quality_gates : List String
  max_attempts : Nat
  deriving Repr, DecidableEq

/-- One entry of `registry.pipeline.phases`. -/
structure PhaseConfig where
  name : String
  agents : List String
  required : Bool
  deriving Repr, DecidableEq

/-- `registry.pipeline.quality_loop`. -/
structure QualityLoop where
  enabled : Bool
  max_attempts : Nat
  retry_on_failure : Bool
  deriving Repr, DecidableEq

/-- `registry.pipeline` (logging block omitted: only used for log paths). -/
structure PipelineCfg where
  max_loop_iterations : Nat
  phases : List PhaseConfig
  quality_loop : QualityLoop
  deriving Repr, DecidableEq

/-- `AgentRegistry` as loaded from `agents/registry.yaml`. -/
structure Registry where
  agents : List Agent
  pipeline : PipelineCfg
  deriving Repr, DecidableEq

/-- `AgentResult` (pipeline.ts).  `duration_ms` and `log_file` are wall-clock /
file-system artifacts and are omitted; `error` carries no control flow. -/
structure AgentResult where
  agent_id : String
  success : Bool
  attempt : Nat
  quality_gates_passed : List String
  quality_gates_failed : List String
  deriving Repr, DecidableEq

/-- Environment oracle for `execSync`: given the loop iteration, the agent id
and the attempt number, decide whether the spawned process exits 0. -/
abbrev Env : Type := Nat → String → Nat → Bool

/-- Observable actions of the pipeline driver, in execution order. -/
inductive Event where
  /-- `executePhase` begins (the `=== PHASE: ... ===` banner). -/
  | phaseStart (iter : Nat) (phase : String)
  /-- `executeAgent` actually spawns the mapped external process. -/
  | procInvoke (iter : Nat) (agentId : String) (attempt : Nat)
  /-- `this.results.set(key, result)` stores a result in the history. -/
  | recordResult (key : String) (r : AgentResult)
  /-- an agent failed all its attempts (`... failed after N attempts`);
  `required` is the resolved phase's `required` flag. -/
  | exhausted (iter : Nat) (agentId : String) (required : Bool)
  /-- `checkQualityGates` ran, with the resulting partition. -/
  | gateEval (iter : Nat) (passed : List String) (failed : List String)
  deriving Repr, DecidableEq

/-- The in-memory results history `private results: Map<string, AgentResult>`,
as an insertion-ordered association list. -/
abbrev RMap : Type := List (String × AgentResult)

/-- JS `Map.set`: replace the binding in place when the key exists, append
otherwise. -/
def mapSet (m : RMap) (k : String) (v : AgentResult) : RMap :=
  if m.any (fun p => p.1 == k) then
    m.map (fun p => if p.1 == k then (k, v) else p)
  else
    m ++ [(k, v)]

/-- `Pipeline.getAgentScript` — the string-keyed lookup table mapping agent id
to invocation command.  A missing key or an empty command string both come
back as `null` (`return scripts[agentId] || null`). -/
def getAgentScript (agentId : String) : Option String :=
  let scripts : List (String × String) :=
    [("planner", ""),
     ("scaffolder", "npx tsx agents/scaffolder.ts"),
     ("implementer-web", "npx tsx agents/implementer-web.ts"),
     ("implementer-backend", "npx tsx agents/implementer-backend.ts"),
     ("implementer-mobile", "npx tsx agents/implementer-mobile.ts"),
     ("integrator", ""),
     ("verifier", ""),
     ("reviewer", ""),
     ("deployer", "")]
  match scripts.lookup agentId with
  | some s => if s = "" then none else some s
  | none => none

/-- `Pipeline.executeAgent`: one attempt.  No mapped script ⇒ skip, reported
as success with no gates.  Otherwise the external process runs (traced as
`procInvoke`); on success `quality_gates_passed = agent.quality_gates`, on
failure `quality_gates_failed = agent.quality_gates`. -/
def executeAgent (env : Env) (iter : Nat) (agent : Agent) (attempt : Nat) :
    AgentResult × List Event :=
  match getAgentScript agent.id with
  | none =>
    ({ agent_id := agent.id, success := true, attempt := attempt,
       quality_gates_passed := [], quality_gates_failed := [] }, [])
  | some _ =>
    if env iter agent.id attempt then
      ({ agent_id := agent.id, success := true, attempt := attempt,
         quality_gates_passed := agent.quality_gates, quality_gates_failed := [] },
       [Event.procInvoke iter agent.id attempt])
    else
      ({ agent_id := agent.id, success := false, attempt := attempt,
         quality_gates_passed := [], quality_gates_failed := agent.quality_gates },
       [Event.procInvoke iter agent.id attempt])

/-- Outcome of the per-agent attempt loop. -/
structure AttemptsOut where
  ok : Bool
  results : RMap
  records : List AgentResult
  events : List Event
  deriving Repr, DecidableEq

/-- The body of the Retry Controller loop
(`for (let attempt = 1; attempt <= agent.max_attempts; attempt++)` inside
`Pipeline.executePhase`), compiled fuel-style: `remaining` counts the
attempts still allowed (`agent.max_attempts + 1 - attempt`), so the loop
guard `attempt <= agent.max_attempts` becomes `remaining > 0`.  Each
attempt's result is stored under key `` `${agent.id}-${attempt}` `` and the
loop stops at the first success; falling out of the loop leaves
`agentSuccess = false`. -/
def runAttemptsAux (env : Env) (iter : Nat) (agent : Agent) :
    Nat → Nat → RMap → AttemptsOut
  | 0, _, m => { ok := false, results := m, records := [], events := [] }
  | remaining + 1, attempt, m =>
    let r := (executeAgent env iter agent attempt).1
    let key := agent.id ++ "-" ++ toString attempt
    let m' := mapSet m key r
    let evs := (executeAgent env iter agent attempt).2 ++ [Event.recordResult key r]
    if r.success then
      { ok := true, results := m', records := [r], events := evs }
    else
      let rest := runAttemptsAux env iter agent remaining (attempt + 1) m'
      { ok := rest.ok, results := rest.results, records := r :: rest.records,
        events := evs ++ rest.events }

/-- The Retry Controller: attempts `1 .. agent.max_attempts`. -/
def runAttempts (env : Env) (iter : Nat) (agent : Agent) (m : RMap) : AttemptsOut :=
  runAttemptsAux env iter agent agent.max_attempts 1 m

/-- Outcome of a phase (or of the agent loop inside it). -/
structure PhaseOut where
  ok : Bool
  results : RMap
  events : List Event
  deriving Repr, DecidableEq

/-- The per-agent loop of `Pipeline.executePhase`: run each resolved agent's
attempts in order; on exhaustion of a `required` phase's agent, return
failure immediately (skipping the remaining agents), otherwise remember the
failure in `phaseSuccess` and continue. -/
def runAgents (env : Env) (iter : Nat) (required : Bool) :
    List Agent → Bool → RMap → PhaseOut
  | [], phaseSuccess, m => { ok := phaseSuccess, results := m, events := [] }
  | agent :: rest, phaseSuccess, m =>
    let att := runAttempts env iter agent m
    if att.ok then
      let out := runAgents env iter required rest phaseSuccess att.results
      { ok := out.ok, results := out.results, events := att.events ++ out.events }
    else
      let evs := att.events ++ [Event.exhausted iter agent.id required]
      if required then
        { ok := false, results := att.results, events := evs }
      else
        let out := runAgents env iter required rest false att.results
        { ok := out.ok, results := out.results, events := evs ++ out.events }

/-- Character-level `String.startsWith` (same semantics, stated over the
character list so that it evaluates inside the kernel). -/
def strStartsWith (s pre : String) : Bool :=
  pre.data.isPrefixOf s.data

/-- Character-level `String.drop` (same semantics, kernel-evaluable). -/
def strDrop (s : String) (n : Nat) : String :=
  ⟨s.data.drop n⟩

/-- `Pipeline.resolveAgentsForPhase`: look the phase up by name, then keep its
agent ids that exist in the registry, dropping per-target implementers whose
target is not in `spec.targets` and the integrator when fewer than two
targets are active.  (`agentId.replace('implementer-', '')` on an id that
starts with `implementer-` drops that prefix: `"implementer-".length = 12`.) -/
def resolveAgentsForPhase (spec : BuildSpec) (reg : Registry) (phaseName : String) :
    List Agent :=
  match reg.pipeline.phases.find? (fun p => p.name == phaseName) with
  | none => []
  | some phaseConfig =>
    phaseConfig.agents.filterMap (fun agentId =>
      match reg.agents.find? (fun a => a.id == agentId) with
      | none => none
      | some agent =>
        if strStartsWith agentId "implementer-" &&
            !(spec.targets.contains (strDrop agentId 12)) then
          none
        else if agentId == "integrator" && spec.targets.length < 2 then
          none
        else
          some agent)

/-- `Pipeline.executePhase`: resolve the phase's agents; an empty list is an
immediate success.  Otherwise run the agents with the phase's `required`
flag (looked up again by name, as in the source). -/
def executePhase (env : Env) (iter : Nat) (spec : BuildSpec) (reg : Registry)
    (phaseName : String) (m : RMap) : PhaseOut :=
  let startEv := [Event.phaseStart iter phaseName]
  let agents := resolveAgentsForPhase spec reg phaseName
  if agents.isEmpty then
    { ok := true, results := m, events := startEv }
  else
    let required :=
      (Option.map (fun p => p.required)
        (reg.pipeline.phases.find? (fun p => p.name == phaseName))).getD false
    let out := runAgents env iter required agents true m
    { ok := out.ok, results := out.results, events := startEv ++ out.events }

/-- `Pipeline.checkQualityGates`: partition the BuildSpec's required gates by
whether some successful result in the history lists the gate as passed. -/
def checkQualityGates (spec : BuildSpec) (m : RMap) : List String × List String :=
  let requiredGates := spec.quality_gates.getD []
  requiredGates.partition (fun gate =>
    m.any (fun p => p.2.success && p.2.quality_gates_passed.contains gate))

/-- Outcome of one pass over the declared phase sequence.  `fatal = true`
means `process.exit(1)` fired on a failed required phase. -/
structure PassOut where
  fatal : Bool
  results : RMap
  events : List Event
  deriving Repr, DecidableEq

/-- The `for (const phaseConfig of this.registry.pipeline.phases)` loop in
`Pipeline.execute`: run each phase; on `!success && phaseConfig.required`,
exit with code 1 on the spot. -/
def runPhaseList (env : Env) (iter : Nat) (spec : BuildSpec) (reg : Registry) :
    List PhaseConfig → RMap → PassOut
  | [], m => { fatal := false, results := m, events := [] }
  | pc :: rest, m =>
    let out := executePhase env iter spec reg pc.name m
    if !out.ok && pc.required then
      { fatal := true, results := out.results, events := out.events }
    else
      let next := runPhaseList env iter spec reg rest out.results
      { fatal := next.fatal, results := next.results, events := out.events ++ next.events }

/-- Final outcome of `Pipeline.execute` (as observed through `main`):
the process exit code, the final results history and the event trace. -/
structure RunOut where
  code : Nat
  results : RMap
  events : List Event
  deriving Repr, DecidableEq

/-- The `while (iteration < max_loop_iterations)` quality loop of
`Pipeline.execute`, compiled fuel-style: `remaining` is
`max_loop_iterations - iteration`, so the `while` guard becomes
`remaining > 0`; reaching fuel 0 is the loop falling through, after which
`main` exits 0.  Each pass runs the declared phases (a fatal required
failure ⇒ exit 1); then, when the BuildSpec declares a non-empty gate list,
the gates are checked: all passed ⇒ break (exit 0 via `main`); otherwise
`continue` when `iter < max_loop_iterations` and
`quality_loop.retry_on_failure` are both true, else exit 1.  No declared
gates ⇒ break after the first pass. -/
def pipelineLoop (env : Env) (spec : BuildSpec) (reg : Registry) :
    Nat → Nat → RMap → RunOut
  | 0, _, m => { code := 0, results := m, events := [] }
  | remaining + 1, iteration, m =>
    let iter := iteration + 1
    let pass := runPhaseList env iter spec reg reg.pipeline.phases m
    if pass.fatal then
      { code := 1, results := pass.results, events := pass.events }
    else
      match spec.quality_gates with
      | some gates =>
        if gates.length > 0 then
          let passed := (checkQualityGates spec pass.results).1
          let failed := (checkQualityGates spec pass.results).2
          let evs := pass.events ++ [Event.gateEval iter passed failed]
          if failed.length > 0 then
            if iter < reg.pipeline.max_loop_iterations &&
                reg.pipeline.quality_loop.retry_on_failure then
              let next := pipelineLoop env spec reg remaining iter pass.results
              { code := next.code, results := next.results, events := evs ++ next.events }
            else
              { code := 1, results := pass.results, events := evs }
          else
            { code := 0, results := pass.results, events := evs }
        else
          { code := 0, results := pass.results, events := pass.events }
      | none =>
        { code := 0, results := pass.results, events := pass.events }

/-- `Pipeline.execute`, started from iteration 0 with an empty history. -/
def execute (env : Env) (spec : BuildSpec) (reg : Registry) : RunOut :=
  pipelineLoop env spec reg reg.pipeline.max_loop_iterations 0 []

/-- `main` + the `Pipeline` constructor: loading fails (exit 1, nothing run)
when `workspace/spec.json` or `agents/registry.yaml` is missing; otherwise
the pipeline executes.  The loaders perform no content validation beyond
parsing. -/
def mainRun (env : Env) (specFile : Option BuildSpec) (regFile : Option Registry) :
    RunOut :=
  match specFile with
  | none => { code := 1, results := [], events := [] }
  | some spec =>
    match regFile with
    | none => { code := 1, results := [], events := [] }
    | some reg => execute env spec reg

/-- Recognise `phaseStart` events (used to count phase-sequence passes). -/
def Event.isPhaseStart : Event → Bool
  | .phaseStart _ _ => true
  | _ => false

/-- A result that does not satisfy gate `g`: it is unsuccessful or does not
list `g` among its passed gates. -/
def safeResult (g : String) (r : AgentResult) : Prop :=
  ¬(r.success = true ∧ g ∈ r.quality_gates_passed)

/-- No result in history `m` satisfies gate `g`. -/
def gateUnsat (g : String) (m : RMap) : Prop :=
  ∀ p ∈ m, safeResult g p.2

/-- How one execution step relates the history before (`m`), the events it
emits (`evs`) and the history after (`m'`): entries change only to records
that were `recordResult`-ed under the same key during the step, and an entry,
once present, is never removed. -/
def HistStep (m : RMap) (evs : List Event) (m' : RMap) : Prop :=
  (∀ k r, m'.lookup k = some r → m.lookup k = some r ∨ Event.recordResult k r ∈ evs) ∧
  (∀ k, (m.lookup k).isSome → (m'.lookup k).isSome) ∧
  (∀ k r, Event.recordResult k r ∈ evs → (m'.lookup k).isSome)

/-! ## Checklist execution engine

`tools/ui-runner-cli.js` (`executeChecklist` / `executeAction`); the verifier
service and `BrowserVerifier.verify` share the same skeleton.  An action's
payload (its `type`, selector, text, ...) is consumed only by the Playwright
page, so the outcome of one action attempt — success, or a thrown error
message — is decided by an environment oracle indexed by the checkpoint
position, the action position within the checkpoint and the attempt number.
-/

/-- Action-attempt oracle: `none` means the attempt succeeds, `some msg`
means it throws an error with message `msg`. -/
abbrev AEnv : Type := Nat → Nat → Nat → Option String

/-- `const MAX_RETRIES = 3` in `executeAction`. -/
def MAX_RETRIES : Nat := 3

/-- One checkpoint of a checklist.  The action payloads are opaque to the
runner's control flow (they go to the browser session), so only the ordered
list of action type tags is kept. -/
structure Checkpoint where
  id : String
  description : String
  actions : List String
  deriving Repr, DecidableEq

/-- A parsed YAML checklist (`base_url` is consumed by `navigate`, i.e. by
the session oracle). -/
structure Checklist where
  name : String
  checkpoints : List Checkpoint
  deriving Repr, DecidableEq

/-- One entry of `RunResult.failures` (ui-runner-cli shape:
`{ checkpoint, description, error }`). -/
structure Failure where
  checkpoint : String
  description : String
  error : String
  deriving Repr, DecidableEq

/-- The `result` object built by `executeChecklist` (screenshot directory and
timestamp omitted: file-system artifacts). -/
structure RunResult where
  success : Bool
  checkpointsPassed : Nat
  checkpointsTotal : Nat
  failures : List Failure
  deriving Repr, DecidableEq

/-- Trace of checklist execution: one event per action attempt. -/
inductive UEvent where
  | actionAttempt (checkpoint : Nat) (action : Nat) (attempt : Nat)
  deriving Repr, DecidableEq

/-- The body of the `executeAction` retry loop
(`for (let attempt = 1; attempt <= MAX_RETRIES; attempt++)`), compiled
fuel-style (`remaining = MAX_RETRIES + 1 - attempt`): a successful attempt
returns (`none`), a failing attempt with `attempt === MAX_RETRIES` re-throws
its error (`some`), otherwise wait `RETRY_DELAY` and retry.  `ci`/`ai`
locate the action for the session oracle. -/
def executeActionAux (aenv : AEnv) (ci ai : Nat) :
    Nat → Nat → Option String × List UEvent
  | 0, _ => (none, [])
  | remaining + 1, attempt =>
    match aenv ci ai attempt with
    | none => (none, [UEvent.actionAttempt ci ai attempt])
    | some err =>
      if attempt = MAX_RETRIES then
        (some err, [UEvent.actionAttempt ci ai attempt])
      else
        let rest := executeActionAux aenv ci ai remaining (attempt + 1)
        (rest.1, UEvent.actionAttempt ci ai attempt :: rest.2)

/-- `executeAction`: attempts `1 .. MAX_RETRIES`. -/
def executeAction (aenv : AEnv) (ci ai : Nat) : Option String × List UEvent :=
  executeActionAux aenv ci ai MAX_RETRIES 1

/-- The `for (const action of checkpoint.actions)` loop inside one
checkpoint's `try` block: run each action in order from position `ai`; the
first exhausted action throws, aborting the remaining actions of this
checkpoint only. -/
def runActions (aenv : AEnv) (ci : Nat) : List String → Nat → Option String × List UEvent
  | [], _ => (none, [])
  | _a :: rest, ai =>
    let res := executeAction aenv ci ai
    match res.1 with
    | none =>
      let next := runActions aenv ci rest (ai + 1)
      (next.1, res.2 ++ next.2)
    | some err => (some err, res.2)

/-- The `for (const checkpoint of checklist.checkpoints)` loop of
`executeChecklist`: a checkpoint whose actions all succeed increments
`checkpointsPassed`; a thrown action error marks the run unsuccessful and
appends one `failures` entry, and execution proceeds to the next
checkpoint either way. -/
def runCheckpoints (aenv : AEnv) : List Checkpoint → Nat → RunResult → RunResult × List UEvent
  | [], _, acc => (acc, [])
  | cp :: rest, ci, acc =>
    let res := runActions aenv ci cp.actions 0
    match res.1 with
    | none =>
      let acc := { acc with checkpointsPassed := acc.checkpointsPassed + 1 }
      let next := runCheckpoints aenv rest (ci + 1) acc
      (next.1, res.2 ++ next.2)
    | some err =>
      let acc := { acc with
        success := false,
        failures := acc.failures ++ [{ checkpoint := cp.id,
                                       description := cp.description,
                                       error := err }] }
      let next := runCheckpoints aenv rest (ci + 1) acc
      (next.1, res.2 ++ next.2)

/-- `executeChecklist` (ui-runner-cli.js): initialise the result with
`success = true`, `checkpointsTotal = checklist.checkpoints.length`, then run
every checkpoint in order. -/
def executeChecklist (aenv : AEnv) (cl : Checklist) : RunResult × List UEvent :=
  runCheckpoints aenv cl.checkpoints 0
    { success := true, checkpointsPassed := 0,
      checkpointsTotal := cl.checkpoints.length, failures := [] }

/-- `BrowserVerifier.executeCheckpoint` (apps/orchestrator verifier.ts):
wraps the per-action loop, returning `{ success, error? }` instead of
throwing. -/
def executeCheckpoint (aenv : AEnv) (ci : Nat) (cp : Checkpoint) :
    (Bool × Option String) × List UEvent :=
  let res := runActions aenv ci cp.actions 0
  match res.1 with
  | none => ((true, none), res.2)
  | some err => ((false, some err), res.2)

/-- One entry of `VerificationResult.failures` (verifier.ts shape:
`{ checkpoint, action, error }`, where `action` holds the checkpoint's
description). -/
structure VFailure where
  checkpoint : String
  action : String
  error : String
  deriving Repr, DecidableEq

/-- `VerificationResult` of `BrowserVerifier.verify`. -/
structure VerificationResult where
  success : Bool
  checkpointsPassed : Nat
  checkpointsTotal : Nat
  failures : List VFailure
  deriving Repr, DecidableEq

/-- The checkpoint loop of `BrowserVerifier.verify`: `checkpointsPassed++` on
success, otherwise `success = false` and a failure entry whose error defaults
to `'Unknown error'`. -/
def verifyCheckpoints (aenv : AEnv) : List Checkpoint → Nat → VerificationResult →
    VerificationResult × List UEvent
  | [], _, acc => (acc, [])
  | cp :: rest, ci, acc =>
    let out := executeCheckpoint aenv ci cp
    if out.1.1 then
      let acc := { acc with checkpointsPassed := acc.checkpointsPassed + 1 }
      let next := verifyCheckpoints aenv rest (ci + 1) acc
      (next.1, out.2 ++ next.2)
    else
      let acc := { acc with
        success := false,
        failures := acc.failures ++ [{ checkpoint := cp.id,
                                       action := cp.description,
                                       error := (out.1.2).getD "Unknown error" }] }
      let next := verifyCheckpoints aenv rest (ci + 1) acc
      (next.1, out.2 ++ next.2)

/-- `BrowserVerifier.verify` (checklist parsing and browser lifecycle are the
environment's side). -/
def verify (aenv : AEnv) (cl : Checklist) : VerificationResult × List UEvent :=
  verifyCheckpoints aenv cl.checkpoints 0
    { success := true, checkpointsPassed := 0,
      checkpointsTotal := cl.checkpoints.length, failures := [] }

/-! ## Concrete fixtures used by counterexamples and witnesses -/

/-- Environment in which every external process succeeds. -/
def envAllOk : Env := fun _ _ _ => true

/-- Environment in which every external process fails. -/
def envAllFail : Env := fun _ _ _ => false

/-- Environment in which processes succeed in loop iteration 1 only. -/
def envIterOne : Env := fun iter _ _ => iter == 1

/-- An agent whose id maps to a real script. -/
def agentScaffolder : Agent :=
  { id := "scaffolder", quality_gates := [], max_attempts := 1 }

/-- A scripted agent with a gate and three attempts. -/
def agentWebGate : Agent :=
  { id := "implementer-web", quality_gates := ["ui_smoke_web"], max_attempts := 3 }

/-- An agent whose id resolves to a no-op invocation but which owns a gate. -/
def agentVerifier : Agent :=
  { id := "verifier", quality_gates := ["ui_smoke_web"], max_attempts := 1 }

/-- A BuildSpec requiring a gate (`"ghost"`) that fixtures cannot satisfy. -/
def specGhost : BuildSpec :=
  { name := "t", targets := ["web"], quality_gates := some ["ghost"] }

/-- A BuildSpec requiring the verifier-owned gate. -/
def specUiGate : BuildSpec :=
  { name := "t", targets := ["web"], quality_gates := some ["ui_smoke_web"] }

/-- Registry: one non-required phase, scaffolder only, max 2 iterations,
retry on gate failure enabled. -/
def regTwoIter : Registry :=
  { agents := [agentScaffolder],
    pipeline :=
      { max_loop_iterations := 2,
        phases := [{ name := "build", agents := ["scaffolder"], required := false }],
        quality_loop := { enabled := true, max_attempts := 3, retry_on_failure := true } } }

/-- Registry: like `regTwoIter` but 3 iterations and retry-on-failure off. -/
def regNoRetry : Registry :=
  { agents := [agentScaffolder],
    pipeline :=
      { max_loop_iterations := 3,
        phases := [{ name := "build", agents := ["scaffolder"], required := false }],
        quality_loop := { enabled := true, max_attempts := 3, retry_on_failure := false } } }

/-- Registry: one required phase with a two-attempt scripted agent. -/
def regRequired : Registry :=
  { agents := [{ id := "scaffolder", quality_gates := ["g"], max_attempts := 2 }],
    pipeline :=
      { max_loop_iterations := 3,
        phases := [{ name := "build", agents := ["scaffolder"], required := true }],
        quality_loop := { enabled := true, max_attempts := 3, retry_on_failure := true } } }

/-- Registry: a no-op verifier agent owning the only required gate. -/
def regVerifierGate : Registry :=
  { agents := [agentVerifier],
    pipeline :=
      { max_loop_iterations := 1,
        phases := [{ name := "verify", agents := ["verifier"], required := true }],
        quality_loop := { enabled := true, max_attempts := 3, retry_on_failure := true } } }

/-- Registry: a build phase listing only the mobile implementer. -/
def regMobileOnly : Registry :=
  { agents := [{ id := "implementer-mobile", quality_gates := [], max_attempts := 1 }],
    pipeline :=
      { max_loop_iterations := 1,
        phases := [{ name := "build", agents := ["implementer-mobile"], required := true }],
        quality_loop := { enabled := true, max_attempts := 3, retry_on_failure := true } } }

/-- Registry: scaffolder in a required phase, 3 iterations, retry enabled. -/
def regThreeIter : Registry :=
  { agents := [agentScaffolder],
    pipeline :=
      { max_loop_iterations := 3,
        phases := [{ name := "build", agents := ["scaffolder"], required := true }],
        quality_loop := { enabled := true, max_attempts := 3, retry_on_failure := true } } }

/-- Checklist session oracle for the truncation scenario: checkpoint 0's
action 1 always throws `"boom"`, every other action attempt succeeds. -/
def aenvBoom : AEnv := fun ci ai _ => if ci == 0 && ai == 1 then some "boom" else none

/-- Two-checkpoint checklist: checkpoint 1 has three actions, checkpoint 2
has two. -/
def clTwoCheckpoints : Checklist :=
  { name := "c",
    checkpoints :=
      [{ id := "cp1", description := "first", actions := ["navigate", "click", "screenshot"] },
       { id := "cp2", description := "second", actions := ["navigate", "assert_text"] }] }

/-! ## Event-shape lemmas -/

theorem executeAgent_events_cases (env : Env) (iter : Nat) (agent : Agent) (attempt : Nat) :
    (executeAgent env iter agent attempt).2 = [] ∨
    (executeAgent env iter agent attempt).2 = [Event.procInvoke iter agent.id attempt] := by
  unfold executeAgent
  cases hs : getAgentScript agent.id with
  | none => simp
  | some s => by_cases h : env iter agent.id attempt <;> simp [h]

theorem executeAgent_event_mem {env : Env} {iter : Nat} {agent : Agent} {attempt : Nat}
    {e : Event} (he : e ∈ (executeAgent env iter agent attempt).2) :
    e = Event.procInvoke iter agent.id attempt := by
  rcases executeAgent_events_cases env iter agent attempt with h | h <;> rw [h] at he <;>
    simp at he
  exact he

theorem runAttemptsAux_events_shape (env : Env) (iter : Nat) (agent : Agent) :
    ∀ (remaining attempt : Nat) (m : RMap),
      ∀ e ∈ (runAttemptsAux env iter agent remaining attempt m).events,
        (∃ i a k, e = Event.procInvoke i a k) ∨ (∃ k r, e = Event.recordResult k r) := by
  intro remaining
  induction remaining with
  | zero => intro attempt m e he; simp [runAttemptsAux] at he
  | succ n ih =>
    intro attempt m e he
    simp only [runAttemptsAux] at he
    split at he
    · rcases List.mem_append.mp he with h | h
      · exact Or.inl ⟨_, _, _, executeAgent_event_mem h⟩
      · simp at h
        exact Or.inr ⟨_, _, h⟩
    · rcases List.mem_append.mp he with h | h
      · rcases List.mem_append.mp h with h' | h'
        · exact Or.inl ⟨_, _, _, executeAgent_event_mem h'⟩
        · simp at h'
          exact Or.inr ⟨_, _, h'⟩
      · exact ih _ _ e h

theorem runAttempts_events_shape (env : Env) (iter : Nat) (agent : Agent) (m : RMap) :
    ∀ e ∈ (runAttempts env iter agent m).events,
      (∃ i a k, e = Event.procInvoke i a k) ∨ (∃ k r, e = Event.recordResult k r) :=
  runAttemptsAux_events_shape env iter agent agent.max_attempts 1 m

theorem runAgents_events_shape (env : Env) (iter : Nat) (required : Bool) :
    ∀ (agents : List Agent) (acc : Bool) (m : RMap),
      ∀ e ∈ (runAgents env iter required agents acc m).events,
        (∃ i a k, e = Event.procInvoke i a k) ∨ (∃ k r, e = Event.recordResult k r) ∨
        (∃ i a, e = Event.exhausted i a required) := by
  intro agents
  induction agents with
  | nil => intro acc m e he; simp [runAgents] at he
  | cons agent rest ih =>
    intro acc m e he
    simp only [runAgents] at he
    split at he
    · rcases List.mem_append.mp he with h | h
      · rcases runAttempts_events_shape env iter agent m e h with h' | h'
        · exact Or.inl h'
        · exact Or.inr (Or.inl h')
      · exact ih _ _ e h
    · split at he
      · rcases List.mem_append.mp he with h | h
        · rcases runAttempts_events_shape env iter agent m e h with h' | h'
          · exact Or.inl h'
          · exact Or.inr (Or.inl h')
        · simp at h
          exact Or.inr (Or.inr ⟨_, _, h⟩)
      · rcases List.mem_append.mp he with h | h
        · rcases List.mem_append.mp h with h' | h'
          · rcases runAttempts_events_shape env iter agent m e h' with h'' | h''
            · exact Or.inl h''
            · exact Or.inr (Or.inl h'')
          · simp at h'
            exact Or.inr (Or.inr ⟨_, _, h'⟩)
        · exact ih _ _ e h

theorem runAgents_filter_phaseStart (env : Env) (iter : Nat) (required : Bool)
    (agents : List Agent) (acc : Bool) (m : RMap) :
    (runAgents env iter required agents acc m).events.filter Event.isPhaseStart = [] := by
  rw [List.filter_eq_nil_iff]
  intro e he
  rcases runAgents_events_shape env iter required agents acc m e he with
    ⟨i, a, k, rfl⟩ | ⟨k, r, rfl⟩ | ⟨i, a, rfl⟩ <;> simp [Event.isPhaseStart]

theorem executePhase_filter_phaseStart (env : Env) (iter : Nat) (spec : BuildSpec)
    (reg : Registry) (phaseName : String) (m : RMap) :
    (executePhase env iter spec reg phaseName m).events.filter Event.isPhaseStart
      = [Event.phaseStart iter phaseName] := by
  simp only [executePhase]
  split
  · simp [Event.isPhaseStart]
  · simp [Event.isPhaseStart, runAgents_filter_phaseStart]

theorem runPhaseList_filter_phaseStart (env : Env) (iter : Nat) (spec : BuildSpec)
    (reg : Registry) :
    ∀ (l : List PhaseConfig) (m : RMap),
      (runPhaseList env iter spec reg l m).fatal = false →
      (runPhaseList env iter spec reg l m).events.filter Event.isPhaseStart
        = l.map (fun pc => Event.phaseStart iter pc.name) := by
  intro l
  induction l with
  | nil => intro m _; simp [runPhaseList]
  | cons pc rest ih =>
    intro m hnf
    simp only [runPhaseList] at hnf ⊢
    by_cases hc :
        (!(executePhase env iter spec reg pc.name m).ok && pc.required) = true
    · rw [if_pos hc] at hnf
      simp at hnf
    · rw [if_neg hc] at hnf ⊢
      simp only [List.map_cons, List.filter_append]
      rw [executePhase_filter_phaseStart, ih _ hnf]
      simp

/-! ## Claim C9: an empty resolved agent list is a vacuous phase success -/

/-- C9: for every phase whose Agent Resolver yields an empty agent list,
phase execution reports success, leaves the history untouched, emits only
the phase banner and invokes no external process. -/
theorem empty_resolution_vacuous_success (env : Env) (iter : Nat) (spec : BuildSpec)
    (reg : Registry) (phaseName : String) (m : RMap)
    (h : resolveAgentsForPhase spec reg phaseName = []) :
    executePhase env iter spec reg phaseName m
      = { ok := true, results := m, events := [Event.phaseStart iter phaseName] } ∧
    ∀ i a k, Event.procInvoke i a k ∉ (executePhase env iter spec reg phaseName m).events := by
  have hmain : executePhase env iter spec reg phaseName m
      = { ok := true, results := m, events := [Event.phaseStart iter phaseName] } := by
    unfold executePhase
    rw [h]
    simp
  refine ⟨hmain, ?_⟩
  intro i a k hmem
  rw [hmain] at hmem
  simp at hmem

/-- C9 witness: target `mobile` absent from `targets` excludes
`implementer-mobile`, the phase resolves to no agents and succeeds without
any process invocation. -/
theorem empty_resolution_vacuous_success_witness :
    resolveAgentsForPhase specGhost regMobileOnly "build" = [] ∧
    executePhase envAllOk 1 specGhost regMobileOnly "build" []
      = { ok := true, results := [], events := [Event.phaseStart 1 "build"] } :=
  ⟨by decide,
   (empty_resolution_vacuous_success envAllOk 1 specGhost regMobileOnly "build" []
      (by decide)).1⟩

/-! ## Claim C3: a three-attempt agent that always fails -/

/-- C3: for every AgentDescriptor with `max_attempts = 3` whose (mapped)
external process fails on every attempt, the retry loop of one phase
execution produces exactly 3 AgentResult records with attempt fields 1, 2
and 3, each unsuccessful, and the agent's overall outcome is failure. -/
theorem retry_exhausts_three_attempts (env : Env) (iter : Nat) (agent : Agent) (m : RMap)
    (hmax : agent.max_attempts = 3) (hs : (getAgentScript agent.id).isSome)
    (hfail : ∀ att, env iter agent.id att = false) :
    (runAttempts env iter agent m).ok = false ∧
    (runAttempts env iter agent m).records.map (fun r => r.attempt) = [1, 2, 3] ∧
    ∀ r ∈ (runAttempts env iter agent m).records, r.success = false := by
  obtain ⟨s, hsome⟩ := Option.isSome_iff_exists.mp hs
  unfold runAttempts
  rw [hmax]
  simp [runAttemptsAux, executeAgent, hsome, hfail]

/-- C3 witness: the scripted web implementer with `max_attempts = 3` in the
always-failing environment. -/
theorem retry_exhausts_three_attempts_witness :
    (agentWebGate.max_attempts = 3 ∧ (getAgentScript agentWebGate.id).isSome ∧
      ∀ att, envAllFail 1 agentWebGate.id att = false) ∧
    ((runAttempts envAllFail 1 agentWebGate []).ok = false ∧
      (runAttempts envAllFail 1 agentWebGate []).records.map (fun r => r.attempt) = [1, 2, 3] ∧
      ∀ r ∈ (runAttempts envAllFail 1 agentWebGate []).records, r.success = false) :=
  ⟨⟨by decide, by decide, fun _ => rfl⟩,
   retry_exhausts_three_attempts envAllFail 1 agentWebGate [] (by decide) (by decide)
     (fun _ => rfl)⟩

/-! ## Claim C5: successful attempts and the satisfied-gates field -/

/-- C5 counterexample: the `verifier` agent resolves to a no-op invocation,
so its attempt is classified as a success, yet its recorded satisfied-gates
field is empty while its descriptor's `quality_gates` set is not. -/
theorem success_gates_counterexample :
    (executeAgent envAllOk 1 agentVerifier 1).1.success = true ∧
    (executeAgent envAllOk 1 agentVerifier 1).1.quality_gates_passed
      ≠ agentVerifier.quality_gates := by
  constructor
  · decide
  · decide

/-- C5 (amended): a successful attempt stops the Retry Controller — the loop
records exactly that one result — and the recorded satisfied-gates field
equals the descriptor's full `quality_gates` set when the agent id maps to
an invocation command, but is empty when the id resolves to a no-op. -/
theorem success_stops_retries (env : Env) (iter : Nat) (agent : Agent)
    (remaining attempt : Nat) (m : RMap) (hrem : remaining ≠ 0)
    (hsucc : (executeAgent env iter agent attempt).1.success = true) :
    (runAttemptsAux env iter agent remaining attempt m).records
      = [(executeAgent env iter agent attempt).1] ∧
    (runAttemptsAux env iter agent remaining attempt m).ok = true ∧
    ((getAgentScript agent.id).isSome →
      (executeAgent env iter agent attempt).1.quality_gates_passed = agent.quality_gates) ∧
    (getAgentScript agent.id = none →
      (executeAgent env iter agent attempt).1.quality_gates_passed = []) := by
  obtain ⟨n, rfl⟩ := Nat.exists_eq_succ_of_ne_zero hrem
  refine ⟨?_, ?_, ?_, ?_⟩
  · simp [runAttemptsAux, hsucc]
  · simp [runAttemptsAux, hsucc]
  · intro hsome
    obtain ⟨s, hsome⟩ := Option.isSome_iff_exists.mp hsome
    unfold executeAgent at hsucc ⊢
    rw [hsome] at hsucc ⊢
    by_cases h : env iter agent.id attempt
    · simp [h]
    · simp [h] at hsucc
  · intro hnone
    unfold executeAgent
    rw [hnone]

/-- C5 witness: the scripted web implementer succeeding at attempt 1 records
its full gate set and the loop stops at one record. -/
theorem success_stops_retries_witness :
    ((3 : Nat) ≠ 0 ∧ (executeAgent envAllOk 1 agentWebGate 1).1.success = true) ∧
    ((runAttemptsAux envAllOk 1 agentWebGate 3 1 []).records
        = [(executeAgent envAllOk 1 agentWebGate 1).1] ∧
      (runAttemptsAux envAllOk 1 agentWebGate 3 1 []).ok = true ∧
      ((getAgentScript agentWebGate.id).isSome →
        (executeAgent envAllOk 1 agentWebGate 1).1.quality_gates_passed
          = agentWebGate.quality_gates) ∧
      (getAgentScript agentWebGate.id = none →
        (executeAgent envAllOk 1 agentWebGate 1).1.quality_gates_passed = [])) :=
  ⟨⟨by decide, by decide⟩,
   success_stops_retries envAllOk 1 agentWebGate 3 1 [] (by decide) (by decide)⟩

/-! ## Claim C10: checkpoint counting partition -/

theorem runCheckpoints_counts (aenv : AEnv) :
    ∀ (l : List Checkpoint) (ci : Nat) (acc : RunResult),
      (runCheckpoints aenv l ci acc).1.checkpointsPassed
          + (runCheckpoints aenv l ci acc).1.failures.length
        = acc.checkpointsPassed + acc.failures.length + l.length ∧
      (runCheckpoints aenv l ci acc).1.checkpointsTotal = acc.checkpointsTotal := by
  intro l
  induction l with
  | nil => intro ci acc; simp [runCheckpoints]
  | cons cp rest ih =>
    intro ci acc
    simp only [runCheckpoints]
    cases hres : (runActions aenv ci cp.actions 0).1 with
    | none =>
      have := ih (ci + 1) { acc with checkpointsPassed := acc.checkpointsPassed + 1 }
      simp at this ⊢
      omega
    | some err =>
      have := ih (ci + 1)
        { success := false, checkpointsPassed := acc.checkpointsPassed,
          checkpointsTotal := acc.checkpointsTotal,
          failures := acc.failures
            ++ [{ checkpoint := cp.id, description := cp.description, error := err }] }
      simp at this ⊢
      omega

theorem verifyCheckpoints_counts (aenv : AEnv) :
    ∀ (l : List Checkpoint) (ci : Nat) (acc : VerificationResult),
      (verifyCheckpoints aenv l ci acc).1.checkpointsPassed
          + (verifyCheckpoints aenv l ci acc).1.failures.length
        = acc.checkpointsPassed + acc.failures.length + l.length ∧
      (verifyCheckpoints aenv l ci acc).1.checkpointsTotal = acc.checkpointsTotal := by
  intro l
  induction l with
  | nil => intro ci acc; simp [verifyCheckpoints]
  | cons cp rest ih =>
    intro ci acc
    simp only [verifyCheckpoints]
    by_cases hok : (executeCheckpoint aenv ci cp).1.1 = true
    · rw [if_pos hok]
      have := ih (ci + 1) { acc with checkpointsPassed := acc.checkpointsPassed + 1 }
      simp at this ⊢
      omega
    · rw [if_neg hok]
      have := ih (ci + 1)
        { success := false, checkpointsPassed := acc.checkpointsPassed,
          checkpointsTotal := acc.checkpointsTotal,
          failures := acc.failures
            ++ [{ checkpoint := cp.id, action := cp.description,
                  error := ((executeCheckpoint aenv ci cp).1.2).getD "Unknown error" }] }
      simp at this ⊢
      omega

/-- C10: for every checklist run that completes, both the CLI runner's
RunResult and `BrowserVerifier.verify`'s result satisfy
`checkpointsPassed + failures.length = checkpointsTotal`: each checkpoint
contributes exactly one passed increment or exactly one failures entry. -/
theorem checkpoint_partition_invariant (aenv : AEnv) (cl : Checklist) :
    ((executeChecklist aenv cl).1.checkpointsPassed
        + (executeChecklist aenv cl).1.failures.length
      = (executeChecklist aenv cl).1.checkpointsTotal) ∧
    ((verify aenv cl).1.checkpointsPassed + (verify aenv cl).1.failures.length
      = (verify aenv cl).1.checkpointsTotal) := by
  constructor
  · have h := runCheckpoints_counts aenv cl.checkpoints 0
      { success := true, checkpointsPassed := 0,
        checkpointsTotal := cl.checkpoints.length, failures := [] }
    unfold executeChecklist
    simp at h
    omega
  · have h := verifyCheckpoints_counts aenv cl.checkpoints 0
      { success := true, checkpointsPassed := 0,
        checkpointsTotal := cl.checkpoints.length, failures := [] }
    unfold verify
    simp at h
    omega

/-! ## Action-level lemmas for the checklist runner -/

theorem executeActionAux_events_shape (aenv : AEnv) (ci ai : Nat) :
    ∀ (remaining attempt : Nat),
      ∀ e ∈ (executeActionAux aenv ci ai remaining attempt).2,
        ∃ k, e = UEvent.actionAttempt ci ai k := by
  intro remaining
  induction remaining with
  | zero => intro attempt e he; simp [executeActionAux] at he
  | succ n ih =>
    intro attempt e he
    cases h : aenv ci ai attempt with
    | none =>
      simp only [executeActionAux, h] at he
      simp at he
      exact ⟨attempt, he⟩
    | some err =>
      simp only [executeActionAux, h] at he
      by_cases hm : attempt = MAX_RETRIES
      · rw [if_pos hm] at he
        simp at he
        exact ⟨attempt, he⟩
      · rw [if_neg hm] at he
        simp only [List.mem_cons] at he
        rcases he with h' | h'
        · exact ⟨attempt, h'⟩
        · exact ih (attempt + 1) e h'

theorem executeAction_events_shape (aenv : AEnv) (ci ai : Nat) :
    ∀ e ∈ (executeAction aenv ci ai).2, ∃ k, e = UEvent.actionAttempt ci ai k :=
  executeActionAux_events_shape aenv ci ai MAX_RETRIES 1

theorem executeAction_first_attempt_mem (aenv : AEnv) (ci ai : Nat) :
    UEvent.actionAttempt ci ai 1 ∈ (executeAction aenv ci ai).2 := by
  unfold executeAction
  cases h : aenv ci ai 1 with
  | none => simp [executeActionAux, MAX_RETRIES, h]
  | some err => simp [executeActionAux, MAX_RETRIES, h]

theorem executeAction_all_fail (aenv : AEnv) (ci ai : Nat)
    (h : ∀ k, (aenv ci ai k).isSome) : (executeAction aenv ci ai).1.isSome := by
  obtain ⟨e1, h1⟩ := Option.isSome_iff_exists.mp (h 1)
  obtain ⟨e2, h2⟩ := Option.isSome_iff_exists.mp (h 2)
  obtain ⟨e3, h3⟩ := Option.isSome_iff_exists.mp (h 3)
  simp [executeAction, executeActionAux, MAX_RETRIES, h1, h2, h3]

theorem runActions_events_shape (aenv : AEnv) (ci : Nat) :
    ∀ (l : List String) (ai : Nat), ∀ e ∈ (runActions aenv ci l ai).2,
      ∃ j k, e = UEvent.actionAttempt ci (ai + j) k := by
  intro l
  induction l with
  | nil => intro ai e he; simp [runActions] at he
  | cons a rest ih =>
    intro ai e he
    simp only [runActions] at he
    cases h : (executeAction aenv ci ai).1 with
    | none =>
      rw [h] at he
      simp only [List.mem_append] at he
      rcases he with h' | h'
      · obtain ⟨k, rfl⟩ := executeAction_events_shape aenv ci ai e h'
        exact ⟨0, k, by simp⟩
      · obtain ⟨j, k, rfl⟩ := ih (ai + 1) e h'
        exact ⟨1 + j, k, by rw [Nat.add_assoc]⟩
    | some err =>
      rw [h] at he
      obtain ⟨k, rfl⟩ := executeAction_events_shape aenv ci ai e he
      exact ⟨0, k, by simp⟩

theorem runActions_all_success (aenv : AEnv) (ci : Nat) :
    ∀ (l : List String) (ai : Nat),
      (∀ j, j < l.length → (executeAction aenv ci (ai + j)).1 = none) →
      (runActions aenv ci l ai).1 = none ∧
      ∀ j, j < l.length →
        UEvent.actionAttempt ci (ai + j) 1 ∈ (runActions aenv ci l ai).2 := by
  intro l
  induction l with
  | nil => intro ai h; simp [runActions]
  | cons a rest ih =>
    intro ai h
    have h0 : (executeAction aenv ci ai).1 = none := by
      have := h 0 (by simp)
      simpa using this
    obtain ⟨hnone, hmem⟩ := ih (ai + 1) (fun j hj => by
      have := h (j + 1) (by simpa using Nat.succ_lt_succ hj)
      have harith : ai + (j + 1) = ai + 1 + j := by omega
      rwa [harith] at this)
    simp only [runActions, h0]
    refine ⟨hnone, ?_⟩
    intro j hj
    cases j with
    | zero =>
      simp only [Nat.add_zero, List.mem_append]
      exact Or.inl (executeAction_first_attempt_mem aenv ci ai)
    | succ j' =>
      have hj' : j' < rest.length := by simpa using Nat.lt_of_succ_lt_succ hj
      have harith : ai + (j' + 1) = ai + 1 + j' := by omega
      rw [harith]
      simp only [List.mem_append]
      exact Or.inr (hmem j' hj')

/-! ## Claim C4: per-checkpoint truncation and continuation -/

/-- C4: for every checklist with two checkpoints in which checkpoint 1's
second of three actions exhausts its 3 action retries (its first action
succeeding and checkpoint 2's actions all succeeding), the runner executes
checkpoint 1's actions 1 and 2 only — never action 3 — fully executes
checkpoint 2, and the RunResult has `checkpointsPassed = 1`,
`checkpointsTotal = 2` and exactly one entry in `failures`. -/
theorem checkpoint_truncation (aenv : AEnv) (cl : Checklist) (cp1 cp2 : Checkpoint)
    (x y z : String) (hcps : cl.checkpoints = [cp1, cp2]) (hact : cp1.actions = [x, y, z])
    (h1 : (executeAction aenv 0 0).1 = none)
    (h2 : ∀ att, (aenv 0 1 att).isSome)
    (h3 : ∀ j, j < cp2.actions.length → (executeAction aenv 1 j).1 = none) :
    (executeChecklist aenv cl).1.checkpointsPassed = 1 ∧
    (executeChecklist aenv cl).1.checkpointsTotal = 2 ∧
    (executeChecklist aenv cl).1.failures.length = 1 ∧
    (UEvent.actionAttempt 0 0 1 ∈ (executeChecklist aenv cl).2 ∧
      UEvent.actionAttempt 0 1 1 ∈ (executeChecklist aenv cl).2) ∧
    (∀ att, UEvent.actionAttempt 0 2 att ∉ (executeChecklist aenv cl).2) ∧
    (∀ j, j < cp2.actions.length →
      UEvent.actionAttempt 1 j 1 ∈ (executeChecklist aenv cl).2) := by
  obtain ⟨err, herr⟩ :=
    Option.isSome_iff_exists.mp (executeAction_all_fail aenv 0 1 h2)
  have hcp1 : runActions aenv 0 cp1.actions 0
      = (some err, (executeAction aenv 0 0).2 ++ (executeAction aenv 0 1).2) := by
    rw [hact]
    simp only [runActions, h1, herr]
  have h3' : ∀ j, j < cp2.actions.length → (executeAction aenv 1 (0 + j)).1 = none := by
    intro j hj
    simpa using h3 j hj
  have hcp2 := runActions_all_success aenv 1 cp2.actions 0 h3'
  obtain ⟨err2, hsnd⟩ : ∃ evs2, runActions aenv 1 cp2.actions 0 = (none, evs2) := by
    refine ⟨(runActions aenv 1 cp2.actions 0).2, ?_⟩
    have := hcp2.1
    exact Prod.ext this rfl
  have hrun : executeChecklist aenv cl
      = ({ success := false, checkpointsPassed := 1, checkpointsTotal := 2,
           failures := [{ checkpoint := cp1.id, description := cp1.description,
                          error := err }] },
         ((executeAction aenv 0 0).2 ++ (executeAction aenv 0 1).2) ++ (err2 ++ [])) := by
    unfold executeChecklist
    rw [hcps]
    simp only [runCheckpoints, hcp1, hsnd, List.length_cons, List.length_nil]
    simp
  refine ⟨by rw [hrun], by rw [hrun], by rw [hrun]; rfl, ?_, ?_, ?_⟩
  · rw [hrun]
    constructor
    · simp only [List.mem_append]
      exact Or.inl (Or.inl (executeAction_first_attempt_mem aenv 0 0))
    · simp only [List.mem_append]
      exact Or.inl (Or.inr (executeAction_first_attempt_mem aenv 0 1))
  · intro att hmem
    rw [hrun] at hmem
    simp only [List.mem_append] at hmem
    rcases hmem with (hm | hm) | hm | hm
    · obtain ⟨k, hk⟩ := executeAction_events_shape aenv 0 0 _ hm
      simp at hk
    · obtain ⟨k, hk⟩ := executeAction_events_shape aenv 0 1 _ hm
      simp at hk
    · have hm' : UEvent.actionAttempt 0 2 att ∈ (runActions aenv 1 cp2.actions 0).2 := by
        rw [hsnd]
        exact hm
      obtain ⟨j, k, hk⟩ := runActions_events_shape aenv 1 cp2.actions 0 _ hm'
      simp at hk
    · simp at hm
  · intro j hj
    rw [hrun]
    simp only [List.mem_append]
    have := hcp2.2 j hj
    rw [hsnd] at this
    simp only [Nat.zero_add] at this
    exact Or.inr (Or.inl this)

/-- C4 witness: the concrete two-checkpoint checklist with the `"boom"`
oracle exercises the truncation rule. -/
theorem checkpoint_truncation_witness :
    ((executeChecklist aenvBoom clTwoCheckpoints).1.checkpointsPassed = 1 ∧
      (executeChecklist aenvBoom clTwoCheckpoints).1.checkpointsTotal = 2 ∧
      (executeChecklist aenvBoom clTwoCheckpoints).1.failures.length = 1) ∧
    (∀ att, att ≤ MAX_RETRIES →
      UEvent.actionAttempt 0 2 att ∉ (executeChecklist aenvBoom clTwoCheckpoints).2) := by
  have h := checkpoint_truncation aenvBoom clTwoCheckpoints
    { id := "cp1", description := "first", actions := ["navigate", "click", "screenshot"] }
    { id := "cp2", description := "second", actions := ["navigate", "assert_text"] }
    "navigate" "click" "screenshot" (by decide) (by decide) (by decide)
    (fun _ => rfl) (by decide)
  exact ⟨⟨h.1, h.2.1, h.2.2.1⟩, fun att _ => h.2.2.2.2.1 att⟩

/-! ## Claim C1: exhaustion in a required phase is fatal on the spot -/

theorem runAttempts_no_exhausted (env : Env) (iter : Nat) (agent : Agent) (m : RMap)
    (i : Nat) (a : String) (b : Bool) :
    Event.exhausted i a b ∉ (runAttempts env iter agent m).events := by
  intro hmem
  rcases runAttempts_events_shape env iter agent m _ hmem with ⟨_, _, _, h⟩ | ⟨_, _, h⟩ <;>
    simp at h

theorem find_name_of_nodup {phases : List PhaseConfig} {pc : PhaseConfig}
    (hnd : (phases.map (fun p => p.name)).Nodup) (hmem : pc ∈ phases) :
    phases.find? (fun p => p.name == pc.name) = some pc := by
  induction phases with
  | nil => simp at hmem
  | cons q rest ih =>
    rcases List.mem_cons.mp hmem with rfl | hmem'
    · exact List.find?_cons_of_pos _ (by simp)
    · have hname : pc.name ∈ rest.map (fun p => p.name) :=
        List.mem_map_of_mem _ hmem'
      rw [List.map_cons, List.nodup_cons] at hnd
      have hq : (q.name == pc.name) = false := by
        rw [beq_eq_false_iff_ne]
        intro he
        exact hnd.1 (by rw [he]; exact hname)
      simp only [List.find?_cons, hq]
      exact ih hnd.2 hmem'

theorem runAgents_exhausted_true (env : Env) (iter : Nat) (required : Bool) :
    ∀ (agents : List Agent) (acc : Bool) (m : RMap) (i : Nat) (a : String),
      Event.exhausted i a true ∈ (runAgents env iter required agents acc m).events →
      required = true ∧ (runAgents env iter required agents acc m).ok = false ∧
      ∃ pre, (runAgents env iter required agents acc m).events
        = pre ++ [Event.exhausted i a true] := by
  intro agents
  induction agents with
  | nil => intro acc m i a h; simp [runAgents] at h
  | cons agent rest ih =>
    intro acc m i a h
    simp only [runAgents] at h ⊢
    by_cases hok : (runAttempts env iter agent m).ok = true
    · rw [if_pos hok] at h ⊢
      simp only [List.mem_append] at h
      rcases h with h | h
      · exact absurd h (runAttempts_no_exhausted env iter agent m i a true)
      · obtain ⟨hreq, hk, pre, hpre⟩ := ih _ _ i a h
        exact ⟨hreq, hk, (runAttempts env iter agent m).events ++ pre, by
          simp [hpre, List.append_assoc]⟩
    · rw [if_neg hok] at h ⊢
      by_cases hreq : required = true
      · rw [if_pos hreq] at h ⊢
        simp only [List.mem_append] at h
        rcases h with h | h
        · exact absurd h (runAttempts_no_exhausted env iter agent m i a true)
        · simp only [List.mem_singleton] at h
          exact ⟨hreq, rfl, (runAttempts env iter agent m).events, by rw [h]⟩
      · rw [if_neg hreq] at h ⊢
        simp only [List.mem_append, List.mem_singleton] at h
        rcases h with (h | h) | h
        · exact absurd h (runAttempts_no_exhausted env iter agent m i a true)
        · cases h
          exact absurd rfl hreq
        · obtain ⟨hreq', _, _⟩ := ih _ _ i a h
          exact absurd hreq' hreq

theorem executePhase_exhausted_true (env : Env) (iter : Nat) (spec : BuildSpec)
    (reg : Registry) (phaseName : String) (m : RMap) (i : Nat) (a : String)
    (h : Event.exhausted i a true ∈ (executePhase env iter spec reg phaseName m).events) :
    (executePhase env iter spec reg phaseName m).ok = false ∧
    (Option.map (fun p => p.required)
      (reg.pipeline.phases.find? (fun p => p.name == phaseName))).getD false = true ∧
    ∃ pre, (executePhase env iter spec reg phaseName m).events
      = pre ++ [Event.exhausted i a true] := by
  simp only [executePhase] at h ⊢
  by_cases hemp : (resolveAgentsForPhase spec reg phaseName).isEmpty = true
  · rw [if_pos hemp] at h
    simp at h
  · rw [if_neg hemp] at h ⊢
    rcases List.mem_cons.mp h with h | h
    · cases h
    · obtain ⟨hreq, hk, pre, hpre⟩ :=
        runAgents_exhausted_true env iter _ _ true m i a h
      refine ⟨hk, hreq, Event.phaseStart iter phaseName :: pre, ?_⟩
      simp [hpre]

theorem runPhaseList_exhausted_true (env : Env) (iter : Nat) (spec : BuildSpec)
    (reg : Registry) (hnd : (reg.pipeline.phases.map (fun p => p.name)).Nodup) :
    ∀ (l : List PhaseConfig) (m : RMap), (∀ pc ∈ l, pc ∈ reg.pipeline.phases) →
      ∀ (i : Nat) (a : String),
        Event.exhausted i a true ∈ (runPhaseList env iter spec reg l m).events →
        (runPhaseList env iter spec reg l m).fatal = true ∧
        ∃ pre, (runPhaseList env iter spec reg l m).events
          = pre ++ [Event.exhausted i a true] := by
  intro l
  induction l with
  | nil => intro m _ i a h; simp [runPhaseList] at h
  | cons pc rest ih =>
    intro m hsub i a h
    simp only [runPhaseList] at h ⊢
    by_cases hc : (!(executePhase env iter spec reg pc.name m).ok && pc.required) = true
    · rw [if_pos hc] at h ⊢
      obtain ⟨_, _, pre, hpre⟩ := executePhase_exhausted_true env iter spec reg pc.name m i a h
      exact ⟨rfl, pre, hpre⟩
    · rw [if_neg hc] at h ⊢
      simp only [List.mem_append] at h
      rcases h with h | h
      · obtain ⟨hok, hreq, _⟩ := executePhase_exhausted_true env iter spec reg pc.name m i a h
        rw [find_name_of_nodup hnd (hsub pc (List.mem_cons_self pc rest))] at hreq
        simp at hreq
        rw [hok, hreq] at hc
        simp at hc
      · obtain ⟨hf, pre, hpre⟩ :=
          ih _ (fun q hq => hsub q (List.mem_cons_of_mem pc hq)) i a h
        refine ⟨hf, (executePhase env iter spec reg pc.name m).events ++ pre, ?_⟩
        simp [hpre, List.append_assoc]

theorem pipelineLoop_exhausted_true (env : Env) (spec : BuildSpec) (reg : Registry)
    (hnd : (reg.pipeline.phases.map (fun p => p.name)).Nodup) :
    ∀ (remaining iteration : Nat) (m : RMap) (i : Nat) (a : String),
      Event.exhausted i a true ∈ (pipelineLoop env spec reg remaining iteration m).events →
      (pipelineLoop env spec reg remaining iteration m).code = 1 ∧
      ∃ pre, (pipelineLoop env spec reg remaining iteration m).events
        = pre ++ [Event.exhausted i a true] := by
  intro remaining
  induction remaining with
  | zero => intro iteration m i a h; simp [pipelineLoop] at h
  | succ n ih =>
    intro iteration m i a h
    simp only [pipelineLoop] at h ⊢
    by_cases hf :
        (runPhaseList env (iteration + 1) spec reg reg.pipeline.phases m).fatal = true
    · rw [if_pos hf] at h ⊢
      obtain ⟨_, pre, hpre⟩ :=
        runPhaseList_exhausted_true env (iteration + 1) spec reg hnd
          reg.pipeline.phases m (fun _ hq => hq) i a h
      exact ⟨rfl, pre, hpre⟩
    · rw [if_neg hf] at h ⊢
      have hpass : ∀ hmem : Event.exhausted i a true
          ∈ (runPhaseList env (iteration + 1) spec reg reg.pipeline.phases m).events,
          False := by
        intro hmem
        obtain ⟨hfat, _⟩ :=
          runPhaseList_exhausted_true env (iteration + 1) spec reg hnd
            reg.pipeline.phases m (fun _ hq => hq) i a hmem
        exact hf hfat
      cases hq : spec.quality_gates with
      | none =>
        rw [hq] at h
        exact absurd h hpass
      | some gates =>
        rw [hq] at h
        simp only [] at h ⊢
        by_cases hlen : gates.length > 0
        · rw [if_pos hlen] at h ⊢
          by_cases hfail :
              (checkQualityGates spec
                (runPhaseList env (iteration + 1) spec reg
                  reg.pipeline.phases m).results).2.length > 0
          · rw [if_pos hfail] at h ⊢
            by_cases hretry : ((iteration + 1 < reg.pipeline.max_loop_iterations : Bool) &&
                reg.pipeline.quality_loop.retry_on_failure) = true
            · rw [if_pos hretry] at h ⊢
              simp only [List.mem_append, List.mem_singleton] at h
              rcases h with (h | h) | h
              · exact absurd h hpass
              · cases h
              · obtain ⟨hc, pre, hpre⟩ := ih _ _ i a h
                refine ⟨hc,
                  ((runPhaseList env (iteration + 1) spec reg reg.pipeline.phases m).events
                    ++ [Event.gateEval (iteration + 1)
                        (checkQualityGates spec (runPhaseList env (iteration + 1) spec reg
                          reg.pipeline.phases m).results).1
                        (checkQualityGates spec (runPhaseList env (iteration + 1) spec reg
                          reg.pipeline.phases m).results).2]) ++ pre, ?_⟩
                simp [hpre, List.append_assoc]
            · rw [if_neg hretry] at h ⊢
              simp only [List.mem_append, List.mem_singleton] at h
              rcases h with h | h
              · exact absurd h hpass
              · cases h
          · rw [if_neg hfail] at h
            simp only [List.mem_append, List.mem_singleton] at h
            rcases h with h | h
            · exact absurd h hpass
            · cases h
        · rw [if_neg hlen] at h
          exact absurd h hpass

/-- C1: whenever an agent of a phase whose PhaseDescriptor (under uniquely
named phases) has `required = true` exhausts its attempts, the pipeline run
exits with code 1 and the exhaustion is the final observable action of the
whole run: no gate evaluation, no later phase start and no further loop
iteration occurs after it. -/
theorem required_exhaustion_is_fatal (env : Env) (spec : BuildSpec) (reg : Registry)
    (i : Nat) (a : String)
    (hnd : (reg.pipeline.phases.map (fun p => p.name)).Nodup)
    (h : Event.exhausted i a true ∈ (execute env spec reg).events) :
    (execute env spec reg).code = 1 ∧
    ∃ pre, (execute env spec reg).events = pre ++ [Event.exhausted i a true] :=
  pipelineLoop_exhausted_true env spec reg hnd reg.pipeline.max_loop_iterations 0 [] i a h

/-- C1 witness: a required build phase whose scripted agent fails both
attempts ends the run at the exhaustion event with exit code 1. -/
theorem required_exhaustion_is_fatal_witness :
    ((regRequired.pipeline.phases.map (fun p => p.name)).Nodup ∧
      Event.exhausted 1 "scaffolder" true ∈ (execute envAllFail specGhost regRequired).events) ∧
    ((execute envAllFail specGhost regRequired).code = 1 ∧
      ∃ pre, (execute envAllFail specGhost regRequired).events
        = pre ++ [Event.exhausted 1 "scaffolder" true]) :=
  ⟨⟨by decide, by decide⟩,
   required_exhaustion_is_fatal envAllFail specGhost regRequired 1 "scaffolder"
     (by decide) (by decide)⟩

/-! ## Gate-unsatisfiability invariant -/

theorem mem_mapSet {m : RMap} {k : String} {v : AgentResult} {p : String × AgentResult}
    (hp : p ∈ mapSet m k v) : p ∈ m ∨ p = (k, v) := by
  unfold mapSet at hp
  split at hp
  · rcases List.mem_map.mp hp with ⟨q, hq, he⟩
    by_cases hqk : (q.1 == k) = true
    · rw [if_pos hqk] at he
      exact Or.inr he.symm
    · rw [if_neg hqk] at he
      exact Or.inl (he ▸ hq)
  · rcases List.mem_append.mp hp with h | h
    · exact Or.inl h
    · simp at h
      exact Or.inr h

theorem gateUnsat_mapSet {g : String} {m : RMap} {k : String} {v : AgentResult}
    (hm : gateUnsat g m) (hv : safeResult g v) : gateUnsat g (mapSet m k v) := by
  intro p hp
  rcases mem_mapSet hp with h | rfl
  · exact hm p h
  · exact hv

theorem safeResult_executeAgent {g : String} {agent : Agent}
    (hg : g ∈ agent.quality_gates → getAgentScript agent.id = none)
    (env : Env) (iter attempt : Nat) :
    safeResult g (executeAgent env iter agent attempt).1 := by
  unfold safeResult executeAgent
  cases hs : getAgentScript agent.id with
  | none => simp
  | some s =>
    by_cases he : env iter agent.id attempt
    · simp [he]
      intro hmem
      rw [hg hmem] at hs
      cases hs
    · simp [he]

theorem gateUnsat_runAttemptsAux {g : String} (env : Env) (iter : Nat) (agent : Agent)
    (hsafe : ∀ attempt, safeResult g (executeAgent env iter agent attempt).1) :
    ∀ (remaining attempt : Nat) (m : RMap), gateUnsat g m →
      gateUnsat g (runAttemptsAux env iter agent remaining attempt m).results := by
  intro remaining
  induction remaining with
  | zero => intro attempt m hm; exact hm
  | succ n ih =>
    intro attempt m hm
    simp only [runAttemptsAux]
    by_cases hsucc : (executeAgent env iter agent attempt).1.success = true
    · rw [if_pos hsucc]
      exact gateUnsat_mapSet hm (hsafe attempt)
    · rw [if_neg hsucc]
      exact ih _ _ (gateUnsat_mapSet hm (hsafe attempt))

theorem gateUnsat_runAttempts {g : String} (env : Env) (iter : Nat) (agent : Agent)
    (hsafe : ∀ attempt, safeResult g (executeAgent env iter agent attempt).1)
    (m : RMap) (hm : gateUnsat g m) :
    gateUnsat g (runAttempts env iter agent m).results :=
  gateUnsat_runAttemptsAux env iter agent hsafe agent.max_attempts 1 m hm

theorem gateUnsat_runAgents {g : String} (env : Env) (iter : Nat) (required : Bool) :
    ∀ (agents : List Agent) (acc : Bool) (m : RMap),
      (∀ a ∈ agents, ∀ attempt, safeResult g (executeAgent env iter a attempt).1) →
      gateUnsat g m →
      gateUnsat g (runAgents env iter required agents acc m).results := by
  intro agents
  induction agents with
  | nil => intro acc m _ hm; exact hm
  | cons agent rest ih =>
    intro acc m hsafe hm
    have hhead : ∀ attempt, safeResult g (executeAgent env iter agent attempt).1 :=
      hsafe agent (List.mem_cons_self agent rest)
    have hrest : ∀ a ∈ rest, ∀ attempt, safeResult g (executeAgent env iter a attempt).1 :=
      fun a ha => hsafe a (List.mem_cons_of_mem agent ha)
    have hatt := gateUnsat_runAttempts env iter agent hhead m hm
    simp only [runAgents]
    by_cases hok : (runAttempts env iter agent m).ok = true
    · rw [if_pos hok]
      exact ih _ _ hrest hatt
    · rw [if_neg hok]
      by_cases hreq : required = true
      · rw [if_pos hreq]
        exact hatt
      · rw [if_neg hreq]
        exact ih _ _ hrest hatt

theorem resolveAgentsForPhase_subset (spec : BuildSpec) (reg : Registry)
    (phaseName : String) :
    ∀ a ∈ resolveAgentsForPhase spec reg phaseName, a ∈ reg.agents := by
  intro a ha
  unfold resolveAgentsForPhase at ha
  split at ha
  · simp at ha
  · rcases List.mem_filterMap.mp ha with ⟨agentId, _, hfa⟩
    cases hfind : reg.agents.find? (fun x => x.id == agentId) with
    | none => rw [hfind] at hfa; cases hfa
    | some agent =>
      rw [hfind] at hfa
      simp only [] at hfa
      by_cases h1 : (strStartsWith agentId "implementer-" &&
          !(spec.targets.contains (strDrop agentId 12))) = true
      · rw [if_pos h1] at hfa
        cases hfa
      · rw [if_neg h1] at hfa
        by_cases h2 : (agentId == "integrator" && decide (spec.targets.length < 2)) = true
        · rw [if_pos h2] at hfa
          cases hfa
        · rw [if_neg h2] at hfa
          cases hfa
          exact List.mem_of_find?_eq_some hfind

theorem gateUnsat_executePhase {g : String} (env : Env) (iter : Nat) (spec : BuildSpec)
    (reg : Registry) (phaseName : String) (m : RMap)
    (HS : ∀ it a att, a ∈ reg.agents → safeResult g (executeAgent env it a att).1)
    (hm : gateUnsat g m) :
    gateUnsat g (executePhase env iter spec reg phaseName m).results := by
  simp only [executePhase]
  split
  · exact hm
  · exact gateUnsat_runAgents env iter _ _ true m
      (fun a ha att => HS iter a att (resolveAgentsForPhase_subset spec reg phaseName a ha))
      hm

theorem gateUnsat_runPhaseList {g : String} (env : Env) (iter : Nat) (spec : BuildSpec)
    (reg : Registry)
    (HS : ∀ it a att, a ∈ reg.agents → safeResult g (executeAgent env it a att).1) :
    ∀ (l : List PhaseConfig) (m : RMap), gateUnsat g m →
      gateUnsat g (runPhaseList env iter spec reg l m).results := by
  intro l
  induction l with
  | nil => intro m hm; exact hm
  | cons pc rest ih =>
    intro m hm
    have hph := gateUnsat_executePhase env iter spec reg pc.name m HS hm
    simp only [runPhaseList]
    by_cases hc : (!(executePhase env iter spec reg pc.name m).ok && pc.required) = true
    · rw [if_pos hc]
      exact hph
    · rw [if_neg hc]
      exact ih _ hph

theorem checkQualityGates_unsat_passed {g : String} {spec : BuildSpec} {m : RMap}
    (hm : gateUnsat g m) : g ∉ (checkQualityGates spec m).1 := by
  intro hmem
  unfold checkQualityGates at hmem
  rw [List.partition_eq_filter_filter] at hmem
  have hpred := (List.mem_filter.mp hmem).2
  rcases List.any_eq_true.mp hpred with ⟨p, hp, hsat⟩
  rw [Bool.and_eq_true] at hsat
  have hgmem : g ∈ p.2.quality_gates_passed := by
    have : p.2.quality_gates_passed.elem g = true := hsat.2
    exact List.elem_iff.mp this
  exact hm p hp ⟨hsat.1, hgmem⟩

theorem checkQualityGates_unsat_failed {g : String} {spec : BuildSpec} {m : RMap}
    (hm : gateUnsat g m) (hg : g ∈ spec.quality_gates.getD []) :
    g ∈ (checkQualityGates spec m).2 := by
  unfold checkQualityGates
  rw [List.partition_eq_filter_filter]
  apply List.mem_filter.mpr
  refine ⟨hg, ?_⟩
  simp only [Function.comp, Bool.not_eq_eq_eq_not, Bool.not_true]
  rw [List.any_eq_false]
  intro p hp
  intro hsat
  rw [Bool.and_eq_true] at hsat
  have hgmem : g ∈ p.2.quality_gates_passed := by
    have : p.2.quality_gates_passed.elem g = true := hsat.2
    exact List.elem_iff.mp this
  exact hm p hp ⟨hsat.1, hgmem⟩

/-! ## Claim C7: an unproducible gate is not a load-time error -/

/-- C7 counterexample: a BuildSpec whose `quality_gates` lists `"ghost"`,
which no registered agent can produce, loads fine and the pipeline executes
its phase (a process is invoked and the phase banner is emitted) before
exiting 1 — contradicting "fails immediately ... no phase executed". -/
theorem ghost_gate_counterexample :
    ("ghost" ∈ specGhost.quality_gates.getD [] ∧
      ∀ a ∈ regThreeIter.agents, "ghost" ∉ a.quality_gates) ∧
    Event.phaseStart 1 "build" ∈ (mainRun envAllOk (some specGhost) (some regThreeIter)).events ∧
    Event.procInvoke 1 "scaffolder" 1
      ∈ (mainRun envAllOk (some specGhost) (some regThreeIter)).events := by
  refine ⟨⟨by decide, by decide⟩, by decide, by decide⟩

/-- C7 (amended): configuration loading does not validate gate
producibility — loading fails only on a missing spec or registry file; with
both files present, a required gate that no registered agent's
`quality_gates` set contains leads to a normal run that terminates with exit
code 1 (given at least one loop iteration), after executing phases rather
than before. -/
theorem ghost_gate_exits_one (env : Env) (spec : BuildSpec) (reg : Registry) (g : String)
    (hg : g ∈ spec.quality_gates.getD [])
    (hnone : ∀ a ∈ reg.agents, g ∉ a.quality_gates)
    (hmax : reg.pipeline.max_loop_iterations ≥ 1) :
    (mainRun env (some spec) (some reg)).code = 1 := by
  have HS : ∀ it a att, a ∈ reg.agents → safeResult g (executeAgent env it a att).1 :=
    fun it a att ha =>
      safeResult_executeAgent (fun hmem => absurd hmem (hnone a ha)) env it att
  have main : ∀ (remaining iteration : Nat) (m : RMap),
      remaining + iteration = reg.pipeline.max_loop_iterations →
      remaining ≠ 0 → gateUnsat g m →
      (pipelineLoop env spec reg remaining iteration m).code = 1 := by
    intro remaining
    induction remaining with
    | zero => intro iteration m _ h0 _; exact absurd rfl h0
    | succ n ih =>
      intro iteration m hsum _ hm
      have hm' := gateUnsat_runPhaseList env (iteration + 1)
        spec reg HS reg.pipeline.phases m hm
      simp only [pipelineLoop]
      by_cases hf :
          (runPhaseList env (iteration + 1) spec reg reg.pipeline.phases m).fatal = true
      · rw [if_pos hf]
      · rw [if_neg hf]
        have hg2 := hg
        cases hqg : spec.quality_gates with
        | none => rw [hqg] at hg2; simp at hg2
        | some gates =>
          rw [hqg] at hg2
          simp only [Option.getD_some] at hg2
          simp only []
          have hlen : gates.length > 0 :=
            List.length_pos.mpr (List.ne_nil_of_mem hg2)
          rw [if_pos hlen]
          have hfmem := checkQualityGates_unsat_failed hm' hg
          have hflen : (checkQualityGates spec
              (runPhaseList env (iteration + 1) spec reg
                reg.pipeline.phases m).results).2.length > 0 :=
            List.length_pos.mpr (List.ne_nil_of_mem hfmem)
          rw [if_pos hflen]
          by_cases hr : ((decide (iteration + 1 < reg.pipeline.max_loop_iterations)) &&
              reg.pipeline.quality_loop.retry_on_failure) = true
          · rw [if_pos hr]
            rw [Bool.and_eq_true] at hr
            have hlt : iteration + 1 < reg.pipeline.max_loop_iterations :=
              of_decide_eq_true hr.1
            exact ih (iteration + 1) _ (by omega) (by omega) hm'
          · rw [if_neg hr]
  have h0 : gateUnsat g ([] : RMap) := by
    intro p hp
    simp at hp
  exact main reg.pipeline.max_loop_iterations 0 [] (by omega) (by omega) h0

/-- C7 amended-theorem witness at the concrete ghost-gate configuration. -/
theorem ghost_gate_exits_one_witness :
    ("ghost" ∈ specGhost.quality_gates.getD [] ∧
      (∀ a ∈ regThreeIter.agents, "ghost" ∉ a.quality_gates) ∧
      regThreeIter.pipeline.max_loop_iterations ≥ 1) ∧
    (mainRun envAllOk (some specGhost) (some regThreeIter)).code = 1 :=
  ⟨⟨by decide, by decide, by decide⟩,
   ghost_gate_exits_one envAllOk specGhost regThreeIter "ghost"
     (by decide) (by decide) (by decide)⟩

/-! ## Claim C8: a gate owned only by no-op agents can never pass -/

theorem executePhase_no_gateEval (env : Env) (iter : Nat) (spec : BuildSpec)
    (reg : Registry) (phaseName : String) (m : RMap) (i : Nat) (p f : List String) :
    Event.gateEval i p f ∉ (executePhase env iter spec reg phaseName m).events := by
  intro h
  simp only [executePhase] at h
  by_cases hemp : (resolveAgentsForPhase spec reg phaseName).isEmpty = true
  · rw [if_pos hemp] at h
    simp at h
  · rw [if_neg hemp] at h
    rcases List.mem_cons.mp h with h | h
    · cases h
    · rcases runAgents_events_shape env iter _ _ true m _ h with
        ⟨_, _, _, he⟩ | ⟨_, _, he⟩ | ⟨_, _, he⟩ <;> simp at he

theorem runPhaseList_no_gateEval (env : Env) (iter : Nat) (spec : BuildSpec)
    (reg : Registry) :
    ∀ (l : List PhaseConfig) (m : RMap) (i : Nat) (p f : List String),
      Event.gateEval i p f ∉ (runPhaseList env iter spec reg l m).events := by
  intro l
  induction l with
  | nil => intro m i p f h; simp [runPhaseList] at h
  | cons pc rest ih =>
    intro m i p f h
    simp only [runPhaseList] at h
    by_cases hc : (!(executePhase env iter spec reg pc.name m).ok && pc.required) = true
    · rw [if_pos hc] at h
      exact executePhase_no_gateEval env iter spec reg pc.name m i p f h
    · rw [if_neg hc] at h
      rcases List.mem_append.mp h with h | h
      · exact executePhase_no_gateEval env iter spec reg pc.name m i p f h
      · exact ih _ i p f h

theorem pipelineLoop_gateEval_unsat {g : String} (env : Env) (spec : BuildSpec)
    (reg : Registry)
    (HS : ∀ it a att, a ∈ reg.agents → safeResult g (executeAgent env it a att).1) :
    ∀ (remaining iteration : Nat) (m : RMap), gateUnsat g m →
      ∀ (i : Nat) (p f : List String),
        Event.gateEval i p f ∈ (pipelineLoop env spec reg remaining iteration m).events →
        g ∉ p ∧ (g ∈ spec.quality_gates.getD [] → g ∈ f) := by
  intro remaining
  induction remaining with
  | zero => intro iteration m hm i p f h; simp [pipelineLoop] at h
  | succ n ih =>
    intro iteration m hm i p f h
    have hm' := gateUnsat_runPhaseList env (iteration + 1) spec reg HS
      reg.pipeline.phases m hm
    have hnoge := runPhaseList_no_gateEval env (iteration + 1) spec reg
      reg.pipeline.phases m i p f
    simp only [pipelineLoop] at h
    by_cases hf :
        (runPhaseList env (iteration + 1) spec reg reg.pipeline.phases m).fatal = true
    · rw [if_pos hf] at h
      exact absurd h hnoge
    · rw [if_neg hf] at h
      cases hqg : spec.quality_gates with
      | none =>
        rw [hqg] at h
        exact absurd h hnoge
      | some gates =>
        rw [hqg] at h
        simp only [] at h
        rw [← hqg]
        have hsingle : Event.gateEval i p f
            ∈ [Event.gateEval (iteration + 1)
                (checkQualityGates spec (runPhaseList env (iteration + 1) spec reg
                  reg.pipeline.phases m).results).1
                (checkQualityGates spec (runPhaseList env (iteration + 1) spec reg
                  reg.pipeline.phases m).results).2] →
            g ∉ p ∧ (g ∈ spec.quality_gates.getD [] → g ∈ f) := by
          intro hmem
          simp only [List.mem_singleton] at hmem
          cases hmem
          exact ⟨checkQualityGates_unsat_passed hm',
            fun hg => checkQualityGates_unsat_failed hm' hg⟩
        by_cases hlen : gates.length > 0
        · rw [if_pos hlen] at h
          by_cases hfl : (checkQualityGates spec (runPhaseList env (iteration + 1) spec reg
              reg.pipeline.phases m).results).2.length > 0
          · rw [if_pos hfl] at h
            by_cases hr : ((decide (iteration + 1 < reg.pipeline.max_loop_iterations)) &&
                reg.pipeline.quality_loop.retry_on_failure) = true
            · rw [if_pos hr] at h
              rcases List.mem_append.mp h with h | h
              · rcases List.mem_append.mp h with h | h
                · exact absurd h hnoge
                · exact hsingle h
              · exact ih _ _ hm' i p f h
            · rw [if_neg hr] at h
              rcases List.mem_append.mp h with h | h
              · exact absurd h hnoge
              · exact hsingle h
          · rw [if_neg hfl] at h
            rcases List.mem_append.mp h with h | h
            · exact absurd h hnoge
            · exact hsingle h
        · rw [if_neg hlen] at h
          exact absurd h hnoge

/-- C8: a required quality gate whose identifier appears only in the
`quality_gates` sets of agents whose invocation command resolves to an
empty/no-op entry is never placed in the passed partition by the Quality
Gate Evaluator at any point of the run, and — when it is a required gate —
always lands in the failed partition, so it can never be satisfied through
the loop. -/
theorem noop_only_gate_never_passes (env : Env) (spec : BuildSpec) (reg : Registry)
    (g : String)
    (hns : ∀ a ∈ reg.agents, g ∈ a.quality_gates → getAgentScript a.id = none) :
    ∀ (i : Nat) (p f : List String),
      Event.gateEval i p f ∈ (execute env spec reg).events →
      g ∉ p ∧ (g ∈ spec.quality_gates.getD [] → g ∈ f) := by
  have HS : ∀ it a att, a ∈ reg.agents → safeResult g (executeAgent env it a att).1 :=
    fun it a att ha => safeResult_executeAgent (hns a ha) env it att
  intro i p f h
  exact pipelineLoop_gateEval_unsat env spec reg HS reg.pipeline.max_loop_iterations 0 []
    (fun q hq => absurd hq (List.not_mem_nil q)) i p f h

/-- C8 witness: the `ui_smoke_web` gate owned only by the no-op `verifier`
lands in the failed partition of the run's sole gate evaluation. -/
theorem noop_only_gate_never_passes_witness :
    ((∀ a ∈ regVerifierGate.agents,
        "ui_smoke_web" ∈ a.quality_gates → getAgentScript a.id = none) ∧
      Event.gateEval 1 [] ["ui_smoke_web"]
        ∈ (execute envAllOk specUiGate regVerifierGate).events) ∧
    ("ui_smoke_web" ∉ ([] : List String) ∧
      ("ui_smoke_web" ∈ specUiGate.quality_gates.getD [] →
        "ui_smoke_web" ∈ ["ui_smoke_web"])) :=
  ⟨⟨by decide, by decide⟩,
   noop_only_gate_never_passes envAllOk specUiGate regVerifierGate "ui_smoke_web"
     (by decide) 1 [] ["ui_smoke_web"] (by decide)⟩

/-! ## Claim C2: bounded quality-loop iteration count -/

theorem pipelineLoop_unsat_trace {g : String} (env : Env) (spec : BuildSpec)
    (reg : Registry)
    (HS : ∀ it a att, a ∈ reg.agents → safeResult g (executeAgent env it a att).1)
    (hg : g ∈ spec.quality_gates.getD [])
    (hretry : reg.pipeline.quality_loop.retry_on_failure = true)
    (hnofatal : ∀ (i : Nat) (m : RMap),
      (runPhaseList env i spec reg reg.pipeline.phases m).fatal = false) :
    ∀ (remaining iteration : Nat) (m : RMap),
      remaining + iteration = reg.pipeline.max_loop_iterations →
      remaining ≠ 0 → gateUnsat g m →
      (pipelineLoop env spec reg remaining iteration m).code = 1 ∧
      (pipelineLoop env spec reg remaining iteration m).events.filter Event.isPhaseStart
        = List.flatten ((List.range remaining).map (fun j =>
            reg.pipeline.phases.map (fun pc => Event.phaseStart (iteration + j + 1) pc.name))) := by
  intro remaining
  induction remaining with
  | zero => intro iteration m _ h0 _; exact absurd rfl h0
  | succ n ih =>
    intro iteration m hsum _ hm
    have hm' := gateUnsat_runPhaseList env (iteration + 1) spec reg HS
      reg.pipeline.phases m hm
    have hfilter := runPhaseList_filter_phaseStart env (iteration + 1) spec reg
      reg.pipeline.phases m (hnofatal _ _)
    simp only [pipelineLoop]
    rw [if_neg (by rw [hnofatal]; simp)]
    have hg2 := hg
    cases hqg : spec.quality_gates with
    | none => rw [hqg] at hg2; simp at hg2
    | some gates =>
      rw [hqg] at hg2
      simp only [Option.getD_some] at hg2
      simp only []
      rw [if_pos (List.length_pos.mpr (List.ne_nil_of_mem hg2))]
      have hfmem := checkQualityGates_unsat_failed hm' hg
      rw [if_pos (List.length_pos.mpr (List.ne_nil_of_mem hfmem))]
      by_cases hn : n = 0
      · subst hn
        have hlt : ¬(iteration + 1 < reg.pipeline.max_loop_iterations) := by omega
        rw [if_neg (by simp [hlt])]
        refine ⟨rfl, ?_⟩
        simp only [List.filter_append, hfilter]
        rw [show List.range 1 = [0] from rfl]
        simp [Event.isPhaseStart]
      · have hlt : iteration + 1 < reg.pipeline.max_loop_iterations := by omega
        rw [if_pos (by simp [hlt, hretry])]
        obtain ⟨hcode, htrace⟩ := ih (iteration + 1) _ (by omega) hn hm'
        refine ⟨hcode, ?_⟩
        simp only [List.filter_append, hfilter, htrace]
        rw [List.range_succ_eq_map]
        simp only [Event.isPhaseStart, List.map_cons, List.flatten_cons, List.map_map]
        simp only [List.filter_cons, Event.isPhaseStart, List.filter_nil]
        have hmapeq : List.map ((fun j => List.map (fun pc => Event.phaseStart
            (iteration + j + 1) pc.name) reg.pipeline.phases) ∘ Nat.succ) (List.range n)
            = List.map (fun j => List.map (fun pc => Event.phaseStart
                (iteration + 1 + j + 1) pc.name) reg.pipeline.phases) (List.range n) := by
          apply List.map_congr_left
          intro j _
          have harith : iteration + Nat.succ j + 1 = iteration + 1 + j + 1 := by omega
          simp [Function.comp, harith]
        rw [hmapeq]
        simp

/-- C2 counterexample: with `max_loop_iterations = 3`, a required gate no
agent can ever satisfy and no required phase failing, but with
`quality_loop.retry_on_failure = false`, the pipeline runs the declared
phase sequence exactly once (a single `phaseStart` per declared phase) and
exits 1 — not three times as the claim requires. -/
theorem quality_loop_no_retry_counterexample :
    (regNoRetry.pipeline.max_loop_iterations = 3 ∧
      "ghost" ∈ specGhost.quality_gates.getD [] ∧
      (∀ a ∈ regNoRetry.agents, "ghost" ∉ a.quality_gates) ∧
      (∀ pc ∈ regNoRetry.pipeline.phases, pc.required = false)) ∧
    (execute envAllOk specGhost regNoRetry).events.filter Event.isPhaseStart
      = [Event.phaseStart 1 "build"] ∧
    (execute envAllOk specGhost regNoRetry).code = 1 := by
  refine ⟨⟨by decide, by decide, by decide, by decide⟩, by decide, by decide⟩

/-- C2 (amended): with `max_loop_iterations = 3`, retry-on-failure enabled,
a required quality gate that no agent result can ever satisfy, and no pass
of the phase sequence failing fatally, the Pipeline Loop runs the full
declared phase sequence exactly 3 times (passes 1, 2, 3, in order) and then
terminates with exit code 1. -/
theorem quality_loop_three_passes (env : Env) (spec : BuildSpec) (reg : Registry)
    (g : String)
    (hmax : reg.pipeline.max_loop_iterations = 3)
    (hretry : reg.pipeline.quality_loop.retry_on_failure = true)
    (hg : g ∈ spec.quality_gates.getD [])
    (HS : ∀ it a att, a ∈ reg.agents → safeResult g (executeAgent env it a att).1)
    (hnofatal : ∀ (i : Nat) (m : RMap),
      (runPhaseList env i spec reg reg.pipeline.phases m).fatal = false) :
    (execute env spec reg).code = 1 ∧
    (execute env spec reg).events.filter Event.isPhaseStart
      = reg.pipeline.phases.map (fun pc => Event.phaseStart 1 pc.name)
        ++ reg.pipeline.phases.map (fun pc => Event.phaseStart 2 pc.name)
        ++ reg.pipeline.phases.map (fun pc => Event.phaseStart 3 pc.name) := by
  have h0 : gateUnsat g ([] : RMap) := fun p hp => absurd hp (List.not_mem_nil p)
  have h := pipelineLoop_unsat_trace env spec reg HS hg hretry hnofatal
    reg.pipeline.max_loop_iterations 0 [] (by omega) (by omega) h0
  rw [hmax] at h
  unfold execute
  rw [hmax]
  refine ⟨h.1, ?_⟩
  rw [h.2]
  have hr3 : List.range 3 = [0, 1, 2] := by decide
  rw [hr3]
  simp

/-- C2 amended-theorem witness: three-iteration registry, gate `"ghost"`
that the scaffolder can never produce, scaffolder always succeeding (so no
required phase fails). -/
theorem quality_loop_three_passes_witness :
    (regThreeIter.pipeline.max_loop_iterations = 3 ∧
      regThreeIter.pipeline.quality_loop.retry_on_failure = true ∧
      "ghost" ∈ specGhost.quality_gates.getD []) ∧
    ((execute envAllOk specGhost regThreeIter).code = 1 ∧
      (execute envAllOk specGhost regThreeIter).events.filter Event.isPhaseStart
        = regThreeIter.pipeline.phases.map (fun pc => Event.phaseStart 1 pc.name)
          ++ regThreeIter.pipeline.phases.map (fun pc => Event.phaseStart 2 pc.name)
          ++ regThreeIter.pipeline.phases.map (fun pc => Event.phaseStart 3 pc.name)) :=
  ⟨⟨by decide, by decide, by decide⟩,
   quality_loop_three_passes envAllOk specGhost regThreeIter "ghost"
     (by decide) (by decide) (by decide)
     (by
       intro it a att ha
       simp only [regThreeIter, agentScaffolder, List.mem_singleton] at ha
       subst ha
       have hs : getAgentScript "scaffolder" = some "npx tsx agents/scaffolder.ts" := by
         decide
       simp [safeResult, executeAgent, hs, envAllOk])
     (by
       intro i m
       have hres : resolveAgentsForPhase specGhost regThreeIter "build"
           = [agentScaffolder] := by decide
       have hs : getAgentScript "scaffolder" = some "npx tsx agents/scaffolder.ts" := by
         decide
       have hphases : regThreeIter.pipeline.phases
           = [{ name := "build", agents := ["scaffolder"], required := true }] := by decide
       simp [runPhaseList, hphases, executePhase, hres, runAgents, runAttempts,
         runAttemptsAux, executeAgent, hs, envAllOk, agentScaffolder])⟩

/-! ## Claim C6: evolution of the results history -/

theorem lookup_of_any_eq_false {m : RMap} {k : String}
    (h : (m.any (fun p => p.1 == k)) = false) : m.lookup k = none := by
  induction m with
  | nil => rfl
  | cons p rest ih =>
    obtain ⟨pk, pv⟩ := p
    simp only [List.any_cons, Bool.or_eq_false_iff] at h
    have hk : (k == pk) = false := by
      rw [beq_eq_false_iff_ne]
      exact Ne.symm (beq_eq_false_iff_ne.mp h.1)
    rw [List.lookup_cons, hk]
    exact ih h.2

theorem lookup_map_replace_self {k : String} {v : AgentResult} :
    ∀ (m : RMap), (m.any (fun p => p.1 == k)) = true →
      (m.map (fun p => if p.1 == k then (k, v) else p)).lookup k = some v := by
  intro m
  induction m with
  | nil => intro h; simp at h
  | cons p rest ih =>
    intro hany
    obtain ⟨pk, pv⟩ := p
    simp only [List.any_cons, Bool.or_eq_true] at hany
    simp only [List.map_cons]
    by_cases hp : (pk == k) = true
    · rw [if_pos hp]
      rw [List.lookup_cons]
      simp
    · rw [if_neg hp]
      have hk : (k == pk) = false := by
        rw [beq_eq_false_iff_ne]
        exact Ne.symm (beq_eq_false_iff_ne.mp (Bool.not_eq_true _ ▸ hp))
      rw [List.lookup_cons, hk]
      rcases hany with h | h
      · exact absurd h hp
      · exact ih h

theorem lookup_map_replace_ne {k k' : String} {v : AgentResult}
    (hne : (k' == k) = false) :
    ∀ (m : RMap),
      (m.map (fun p => if p.1 == k then (k, v) else p)).lookup k' = m.lookup k' := by
  intro m
  induction m with
  | nil => rfl
  | cons p rest ih =>
    obtain ⟨pk, pv⟩ := p
    simp only [List.map_cons]
    by_cases hp : (pk == k) = true
    · rw [if_pos hp]
      have hpk : pk = k := beq_iff_eq.mp hp
      subst hpk
      rw [List.lookup_cons, List.lookup_cons, hne]
      exact ih
    · rw [if_neg hp]
      rw [List.lookup_cons, List.lookup_cons]
      cases hkp : (k' == pk) with
      | true => rfl
      | false => exact ih

theorem lookup_mapSet_self (m : RMap) (k : String) (v : AgentResult) :
    (mapSet m k v).lookup k = some v := by
  unfold mapSet
  by_cases hany : (m.any (fun p => p.1 == k)) = true
  · rw [if_pos hany]
    exact lookup_map_replace_self m hany
  · rw [if_neg hany]
    rw [List.lookup_append, lookup_of_any_eq_false (Bool.not_eq_true _ ▸ hany)]
    simp [List.lookup_cons]

theorem lookup_mapSet_ne (m : RMap) (k : String) (v : AgentResult) (k' : String)
    (hne : k' ≠ k) : (mapSet m k v).lookup k' = m.lookup k' := by
  have hb : (k' == k) = false := beq_eq_false_iff_ne.mpr hne
  unfold mapSet
  by_cases hany : (m.any (fun p => p.1 == k)) = true
  · rw [if_pos hany]
    exact lookup_map_replace_ne hb m
  · rw [if_neg hany]
    rw [List.lookup_append]
    rw [List.lookup_cons, hb]
    simp

theorem histStep_nil (m : RMap) : HistStep m [] m := by
  refine ⟨fun k r h => Or.inl h, fun k h => h, fun k r h => ?_⟩
  simp at h

theorem histStep_comp {m1 : RMap} {e1 : List Event} {m2 : RMap} {e2 : List Event}
    {m3 : RMap} (h1 : HistStep m1 e1 m2) (h2 : HistStep m2 e2 m3) :
    HistStep m1 (e1 ++ e2) m3 := by
  obtain ⟨h1a, h1b, h1c⟩ := h1
  obtain ⟨h2a, h2b, h2c⟩ := h2
  refine ⟨?_, ?_, ?_⟩
  · intro k r hl
    rcases h2a k r hl with hl' | hev
    · rcases h1a k r hl' with hl'' | hev
      · exact Or.inl hl''
      · exact Or.inr (List.mem_append.mpr (Or.inl hev))
    · exact Or.inr (List.mem_append.mpr (Or.inr hev))
  · intro k hs
    exact h2b k (h1b k hs)
  · intro k r hev
    rcases List.mem_append.mp hev with hev | hev
    · exact h2b k (h1c k r hev)
    · exact h2c k r hev

theorem histStep_skip {e : Event} (he : ∀ k r, e ≠ Event.recordResult k r)
    {m : RMap} {evs : List Event} {m' : RMap} (h : HistStep m evs m') :
    HistStep m (e :: evs) m' := by
  obtain ⟨ha, hb, hc⟩ := h
  refine ⟨?_, hb, ?_⟩
  · intro k r hl
    rcases ha k r hl with hl' | hev
    · exact Or.inl hl'
    · exact Or.inr (List.mem_cons_of_mem e hev)
  · intro k r hev
    rcases List.mem_cons.mp hev with hev | hev
    · exact absurd hev.symm (he k r)
    · exact hc k r hev

theorem histStep_record (m : RMap) (k : String) (v : AgentResult) :
    HistStep m [Event.recordResult k v] (mapSet m k v) := by
  refine ⟨?_, ?_, ?_⟩
  · intro k' r hl
    by_cases hk : k' = k
    · subst hk
      rw [lookup_mapSet_self] at hl
      cases hl
      exact Or.inr (List.mem_singleton.mpr rfl)
    · rw [lookup_mapSet_ne m k v k' hk] at hl
      exact Or.inl hl
  · intro k' hs
    by_cases hk : k' = k
    · subst hk
      rw [lookup_mapSet_self]
      rfl
    · rw [lookup_mapSet_ne m k v k' hk]
      exact hs
  · intro k' r hev
    simp only [List.mem_singleton] at hev
    cases hev
    rw [lookup_mapSet_self]
    rfl

theorem histStep_executeAgent_events (env : Env) (iter : Nat) (agent : Agent)
    (attempt : Nat) (m : RMap) :
    HistStep m (executeAgent env iter agent attempt).2 m := by
  rcases executeAgent_events_cases env iter agent attempt with h | h <;> rw [h]
  · exact histStep_nil m
  · exact histStep_skip (fun k r hne => by cases hne) (histStep_nil m)

theorem histStep_runAttemptsAux (env : Env) (iter : Nat) (agent : Agent) :
    ∀ (remaining attempt : Nat) (m : RMap),
      HistStep m (runAttemptsAux env iter agent remaining attempt m).events
        (runAttemptsAux env iter agent remaining attempt m).results := by
  intro remaining
  induction remaining with
  | zero => intro attempt m; exact histStep_nil m
  | succ n ih =>
    intro attempt m
    simp only [runAttemptsAux]
    have hstep : HistStep m
        ((executeAgent env iter agent attempt).2
          ++ [Event.recordResult (agent.id ++ "-" ++ toString attempt)
                (executeAgent env iter agent attempt).1])
        (mapSet m (agent.id ++ "-" ++ toString attempt)
          (executeAgent env iter agent attempt).1) :=
      histStep_comp (histStep_executeAgent_events env iter agent attempt m)
        (histStep_record m _ _)
    by_cases hsucc : (executeAgent env iter agent attempt).1.success = true
    · rw [if_pos hsucc]
      exact hstep
    · rw [if_neg hsucc]
      exact histStep_comp hstep (ih _ _)

theorem histStep_runAttempts (env : Env) (iter : Nat) (agent : Agent) (m : RMap) :
    HistStep m (runAttempts env iter agent m).events (runAttempts env iter agent m).results :=
  histStep_runAttemptsAux env iter agent agent.max_attempts 1 m

theorem histStep_runAgents (env : Env) (iter : Nat) (required : Bool) :
    ∀ (agents : List Agent) (acc : Bool) (m : RMap),
      HistStep m (runAgents env iter required agents acc m).events
        (runAgents env iter required agents acc m).results := by
  intro agents
  induction agents with
  | nil => intro acc m; exact histStep_nil m
  | cons agent rest ih =>
    intro acc m
    simp only [runAgents]
    by_cases hok : (runAttempts env iter agent m).ok = true
    · rw [if_pos hok]
      exact histStep_comp (histStep_runAttempts env iter agent m) (ih _ _)
    · rw [if_neg hok]
      have hex : HistStep m
          ((runAttempts env iter agent m).events ++ [Event.exhausted iter agent.id required])
          (runAttempts env iter agent m).results :=
        histStep_comp (histStep_runAttempts env iter agent m)
          (histStep_skip (fun k r hne => by cases hne)
            (histStep_nil (runAttempts env iter agent m).results))
      by_cases hreq : required = true
      · rw [if_pos hreq]
        exact hex
      · rw [if_neg hreq]
        exact histStep_comp hex (ih _ _)

theorem histStep_executePhase (env : Env) (iter : Nat) (spec : BuildSpec)
    (reg : Registry) (phaseName : String) (m : RMap) :
    HistStep m (executePhase env iter spec reg phaseName m).events
      (executePhase env iter spec reg phaseName m).results := by
  simp only [executePhase]
  split
  · exact histStep_skip (fun k r hne => by cases hne) (histStep_nil m)
  · exact histStep_skip (fun k r hne => by cases hne) (histStep_runAgents env iter _ _ true m)

theorem histStep_runPhaseList (env : Env) (iter : Nat) (spec : BuildSpec)
    (reg : Registry) :
    ∀ (l : List PhaseConfig) (m : RMap),
      HistStep m (runPhaseList env iter spec reg l m).events
        (runPhaseList env iter spec reg l m).results := by
  intro l
  induction l with
  | nil => intro m; exact histStep_nil m
  | cons pc rest ih =>
    intro m
    simp only [runPhaseList]
    by_cases hc : (!(executePhase env iter spec reg pc.name m).ok && pc.required) = true
    · rw [if_pos hc]
      exact histStep_executePhase env iter spec reg pc.name m
    · rw [if_neg hc]
      exact histStep_comp (histStep_executePhase env iter spec reg pc.name m) (ih _)

theorem histStep_pipelineLoop (env : Env) (spec : BuildSpec) (reg : Registry) :
    ∀ (remaining iteration : Nat) (m : RMap),
      HistStep m (pipelineLoop env spec reg remaining iteration m).events
        (pipelineLoop env spec reg remaining iteration m).results := by
  intro remaining
  induction remaining with
  | zero => intro iteration m; exact histStep_nil m
  | succ n ih =>
    intro iteration m
    have hpass := histStep_runPhaseList env (iteration + 1) spec reg reg.pipeline.phases m
    simp only [pipelineLoop]
    by_cases hf :
        (runPhaseList env (iteration + 1) spec reg reg.pipeline.phases m).fatal = true
    · rw [if_pos hf]
      exact hpass
    · rw [if_neg hf]
      cases spec.quality_gates with
      | none => exact hpass
      | some gates =>
        simp only []
        by_cases hlen : gates.length > 0
        · rw [if_pos hlen]
          have hge : HistStep m
              ((runPhaseList env (iteration + 1) spec reg reg.pipeline.phases m).events
                ++ [Event.gateEval (iteration + 1)
                    (checkQualityGates spec (runPhaseList env (iteration + 1) spec reg
                      reg.pipeline.phases m).results).1
                    (checkQualityGates spec (runPhaseList env (iteration + 1) spec reg
                      reg.pipeline.phases m).results).2])
              (runPhaseList env (iteration + 1) spec reg reg.pipeline.phases m).results :=
            histStep_comp hpass
              (histStep_skip (fun k r hne => by cases hne)
                (histStep_nil (runPhaseList env (iteration + 1) spec reg
                  reg.pipeline.phases m).results))
          by_cases hfl : (checkQualityGates spec (runPhaseList env (iteration + 1) spec reg
              reg.pipeline.phases m).results).2.length > 0
          · rw [if_pos hfl]
            by_cases hr : ((decide (iteration + 1 < reg.pipeline.max_loop_iterations)) &&
                reg.pipeline.quality_loop.retry_on_failure) = true
            · rw [if_pos hr]
              exact histStep_comp hge (ih _ _)
            · rw [if_neg hr]
              exact hge
          · rw [if_neg hfl]
            exact hge
        · rw [if_neg hlen]
          exact hpass

/-- C6 counterexample: across quality-loop re-runs the results `Map` reuses
the key `<agent-id>-<attempt>`, so a recorded AgentResult is overwritten:
iteration 1 records a successful `scaffolder-1` result, iteration 2 replaces
it in place and the final history holds only the failed record — the success
record was removed, contradicting the append-only claim. -/
theorem results_overwrite_counterexample :
    (Event.recordResult "scaffolder-1"
        { agent_id := "scaffolder", success := true, attempt := 1,
          quality_gates_passed := [], quality_gates_failed := [] }
      ∈ (execute envIterOne specGhost regTwoIter).events) ∧
    (execute envIterOne specGhost regTwoIter).results
      = [("scaffolder-1",
          { agent_id := "scaffolder", success := false, attempt := 1,
            quality_gates_passed := [], quality_gates_failed := [] })] := by
  constructor
  · decide
  · decide

/-- C6 (amended): the results history changes only through `Map.set`
operations keyed `<agent-id>-<attempt>`: every record present in the final
history was recorded under exactly that key during the run, and once any
record is recorded at a key the history retains an entry at that key to the
end of the run — but a quality-loop re-run of the same agent attempt reuses
the key and replaces the earlier record in place rather than appending. -/
theorem results_history_tracking (env : Env) (spec : BuildSpec) (reg : Registry) :
    (∀ (k : String) (r : AgentResult),
      (execute env spec reg).results.lookup k = some r →
      Event.recordResult k r ∈ (execute env spec reg).events) ∧
    (∀ (k : String) (r : AgentResult),
      Event.recordResult k r ∈ (execute env spec reg).events →
      ((execute env spec reg).results.lookup k).isSome = true) := by
  obtain ⟨h1, _, h3⟩ :=
    histStep_pipelineLoop env spec reg reg.pipeline.max_loop_iterations 0 []
  refine ⟨?_, h3⟩
  intro k r hl
  rcases h1 k r hl with h | h
  · simp at h
  · exact h

end Ork
